import Mathlib

/-!
# piControl — formal verification of the spec against the source

Shallow embedding of the core of the `GrieferPig/picontrol` repository:
the wire frame codec (`src/InterruptSerialPIO.cpp`, `src/port.cpp`), the
inbound frame queue (`src/port.cpp`), the quadratic-Bézier curve evaluator
(`src/curve.cpp`), and the parameter-sync logic of the core-1 scan loop
(`src/module_task.cpp`).

Machine integers are modelled as `Nat`/`Int` with explicit wrap
(`% 2^w`) where the C code can wrap; C truncating division is `Int.tdiv`;
`float` arithmetic, where a claim depends on it, is modelled as rationals
rounded to IEEE-754 binary32 precision (round-to-nearest, ties-to-even,
unbounded exponent range — no overflow/subnormal edge cases arise at any
input used by a theorem below).
-/

namespace PiControl

/-- `MODULE_MAX_PAYLOAD` from `src/common.hpp` (2 KB payloads). -/
def MODULE_MAX_PAYLOAD : Nat := 2048

/-- Modelled from the spec: the capacity of `SerialParser::buffer`.
The C struct `SerialParser` used by `src/InterruptSerialPIO.cpp` is not
present under `src/` (the header in the tree is a superseded class
revision); spec §4.1 requires the decoder to accept every declared payload
length up to `MaxPayload`, so the buffer holds a full maximal frame:
4 header bytes + `MaxPayload` payload bytes + 1 checksum byte. -/
def PARSER_BUFFER_CAP : Nat := 4 + MODULE_MAX_PAYLOAD + 1

/-- `calcChecksum` from `src/InterruptSerialPIO.cpp` lines 41–49 (identical
copy in `src/port.cpp` lines 134–142): sum all bytes into a `uint16_t`
accumulator (wrapping mod 2^16) and return the low byte. -/
def calcChecksum (data : List Nat) : Nat :=
  (data.foldl (fun s b => (s + b) % 65536) 0) % 256

/-- The byte stream produced by `sendMessage` (`src/port.cpp` lines
393–441) for one frame, ignoring the port lookup: header
`START | commandId | lenLo | lenHi`, payload (truncated to
`MODULE_MAX_PAYLOAD`), then a running-`uint8_t` checksum seeded with
`calcChecksum(header)`. -/
def sendMessageBytes (commandId : Nat) (payload : List Nat) : List Nat :=
  let payloadLen := min payload.length MODULE_MAX_PAYLOAD
  let pl := payload.take payloadLen
  let header := [0xAA, commandId % 256, payloadLen % 256, (payloadLen / 256) % 256]
  let checksum := pl.foldl (fun c b => (c + b) % 256) (calcChecksum header)
  header ++ pl ++ [checksum]

/-- Decoder state: the `SerialParser` struct driven by
`src/InterruptSerialPIO.cpp`.  `buffer` models the first `length` bytes of
the C byte array, so `length` is `buffer.length`. -/
structure SerialParser where
  buffer : List Nat
  expectedLength : Nat
  syncing : Bool
  lastByteReceivedTime : Nat
deriving DecidableEq, Repr

/-- `resetParser` (`src/InterruptSerialPIO.cpp` lines 125–132). -/
def resetParser : SerialParser :=
  { buffer := [], expectedLength := 0, syncing := false, lastByteReceivedTime := 0 }

/-- A decoded inbound frame (`ModuleMessage` sans port coordinates). -/
structure Frame where
  commandId : Nat
  payloadLength : Nat
  payload : List Nat
deriving DecidableEq, Repr

/-- `emitFrame` (`src/InterruptSerialPIO.cpp` lines 367–396): build a
`ModuleMessage` from the parse buffer; the declared payload length is
clamped to the message payload capacity (`sizeof(slot->payload)` =
`MODULE_MAX_PAYLOAD`).  The frame-queue interaction is modelled separately
(see `allocateMessageFromIRQ` below); `allocateMessageFromIRQ` never
returns null, so emission itself is unconditional. -/
def emitFrame (p : SerialParser) : Option Frame :=
  if p.buffer.length < 4 then none
  else
    let declared := p.buffer.getD 2 0 + 256 * p.buffer.getD 3 0
    let len := min declared MODULE_MAX_PAYLOAD
    some { commandId := p.buffer.getD 1 0
           payloadLength := len
           payload := (p.buffer.drop 4).take len }

/-- The payload length declared by a 4-byte frame header (little-endian
`buffer[2] | buffer[3] << 8`). -/
def payloadLenOf (buf : List Nat) : Nat :=
  buf.getD 2 0 + 256 * buf.getD 3 0

/-- `processByte` (`src/InterruptSerialPIO.cpp` lines 398–449): one byte of
the stream decoder.  `now` is `to_ms_since_boot(get_absolute_time())`.
Returns the successor state and the frame emitted by this byte, if any.
The source's early `return`s are folded into if/else (the not-syncing
branch is written last); after the length-4 header branch stores
`expectedLength = 5 + payloadLen ≥ 5`, the source falls through to the
completion check, which cannot fire at buffer length 4, so that branch
returns directly here. -/
def processByte (p : SerialParser) (b : Nat) (now : Nat) : SerialParser × Option Frame :=
  if p.syncing then
    if PARSER_BUFFER_CAP ≤ p.buffer.length then (resetParser, none)
    else if (p.buffer ++ [b]).length = 4 then
      if MODULE_MAX_PAYLOAD < payloadLenOf (p.buffer ++ [b]) then (resetParser, none)
      else if PARSER_BUFFER_CAP < 5 + payloadLenOf (p.buffer ++ [b]) then (resetParser, none)
      else
        ({ p with buffer := p.buffer ++ [b],
                  expectedLength := 5 + payloadLenOf (p.buffer ++ [b]),
                  lastByteReceivedTime := now }, none)
    else if 0 < p.expectedLength ∧ (p.buffer ++ [b]).length = p.expectedLength then
      if (p.buffer ++ [b]).getLast? = some (calcChecksum (p.buffer ++ [b]).dropLast) then
        (resetParser, emitFrame { p with buffer := p.buffer ++ [b],
                                         lastByteReceivedTime := now })
      else (resetParser, none)
    else ({ p with buffer := p.buffer ++ [b], lastByteReceivedTime := now }, none)
  else if b = 0xAA then
    ({ p with buffer := [b], syncing := true }, none)
  else (p, none)

/-- Feed a byte sequence into the decoder one byte at a time, collecting
every emitted frame in order (`ispio_handle_irq` drains the RX FIFO through
`processByte`; the inter-byte timeout path never fires when the bytes of
one frame arrive in a single burst, modelled here by a common timestamp). -/
def feed (p : SerialParser) (bytes : List Nat) (now : Nat) : SerialParser × List Frame :=
  bytes.foldl
    (fun acc b =>
      let r := processByte acc.1 b now
      (r.1, acc.2 ++ r.2.toList))
    (p, [])

/-! ### Inbound frame queue (`src/port.cpp` lines 14–17, 144–161, 514–543) -/

/-- `sizeof(messageQueue)/sizeof(messageQueue[0])` — 16 slots. -/
def QUEUE_CAP : Nat := 16

/-- The `messageQueue` ring buffer with its `volatile` head/tail/count
indices.  `slots` is the backing array (reads at indices ≥ 16 never occur
from well-formed states). -/
structure MessageQueue where
  slots : Nat → Frame
  head : Nat
  tail : Nat
  count : Nat

/-- Well-formedness of the ring: indices in range and `head` positioned
`count` entries past `tail` (holds at the zero-initialised start and is
preserved by every operation). -/
def MessageQueue.Wf (q : MessageQueue) : Prop :=
  q.head < QUEUE_CAP ∧ q.tail < QUEUE_CAP ∧ q.count ≤ QUEUE_CAP ∧
    q.head = (q.tail + q.count) % QUEUE_CAP

instance (q : MessageQueue) : Decidable q.Wf := by
  unfold MessageQueue.Wf
  infer_instance

/-- The queue's logical content, oldest first: `count` entries starting at
`tail`. -/
def MessageQueue.toList (q : MessageQueue) : List Frame :=
  (List.range q.count).map (fun i => q.slots ((q.tail + i) % QUEUE_CAP))

/-- `allocateMessageFromIRQ` (`src/port.cpp` lines 144–154): when the
queue is full, drop the oldest entry to make room; the returned write slot
is always `messageQueue[messageHead]`. -/
def allocateMessageFromIRQ (q : MessageQueue) : MessageQueue :=
  if q.count = QUEUE_CAP then
    { q with tail := (q.tail + 1) % QUEUE_CAP, count := q.count - 1 }
  else q

/-- `commitMessageFromIRQ` (`src/port.cpp` lines 156–161). -/
def commitMessageFromIRQ (q : MessageQueue) : MessageQueue :=
  { q with head := (q.head + 1) % QUEUE_CAP, count := q.count + 1 }

/-- One IRQ-side enqueue as performed by `emitFrame`: allocate (dropping
the oldest if full), fill `messageQueue[messageHead]`, commit. -/
def enqueueFromIRQ (q : MessageQueue) (m : Frame) : MessageQueue :=
  let q1 := allocateMessageFromIRQ q
  let q2 : MessageQueue :=
    { q1 with slots := fun i => if i = q1.head then m else q1.slots i }
  commitMessageFromIRQ q2

/-- The defensive copy in `getNextMessage` (`src/port.cpp` lines 530–537):
`payloadLength` is clamped to `sizeof(out.payload)` and only that many
bytes are copied. -/
def clampMessage (f : Frame) : Frame :=
  let len := min f.payloadLength MODULE_MAX_PAYLOAD
  { f with payloadLength := len, payload := f.payload.take len }

/-- `getNextMessage` (`src/port.cpp` lines 514–543): dequeue the oldest
frame, or `none` when the queue is empty. -/
def getNextMessage (q : MessageQueue) : Option (Frame × MessageQueue) :=
  if q.count = 0 then none
  else some (clampMessage (q.slots q.tail),
             { q with tail := (q.tail + 1) % QUEUE_CAP, count := q.count - 1 })

/-- The statically zero-initialised queue at boot. -/
def emptyQueue : MessageQueue :=
  { slots := fun _ => { commandId := 0, payloadLength := 0, payload := [] },
    head := 0, tail := 0, count := 0 }

/-! ### Curve evaluator (`src/curve.cpp`, `src/curve.h`)

All `int32_t` arithmetic in the solver is modelled exactly over `ℤ`: for
curve coordinates in `[0,255]` and the `t ∈ [0,1024]` fixed-point range
every intermediate of `bezier1D`/`solveT` fits comfortably in `int32_t`
(bounds are in the source comments), so no wrap occurs on any input a
theorem below evaluates.  `>>` on a non-negative `int32_t` is division by
the power of two (`Int.fdiv` — arithmetic shift); C `/` is `Int.tdiv`. -/

/-- `CurvePoint` (`src/curve.h`). -/
structure CurvePoint where
  x : Nat
  y : Nat
deriving DecidableEq, Repr

/-- `Curve` (`src/curve.h`): `count` points (2–4) and `count - 1`
controls; the fixed C arrays are modelled as lists read through `getD`
(out-of-range reads of the zero-initialised arrays yield `(0,0)`). -/
structure Curve where
  count : Nat
  points : List CurvePoint
  controls : List CurvePoint
deriving DecidableEq, Repr

namespace CurveEvaluator

/-- `CurveEvaluator::isqrt` (`src/curve.cpp` lines 4–14), recursion on
`n >> 2`.  The structural `fuel` argument (initialised to `n`, which
dominates the logarithmic recursion depth — `fuel ≥ n` is maintained and
forces `n < 2` before exhaustion) keeps the definition kernel-reducible;
the square of the candidate is a `uint32_t` multiply, hence the
`% 2^32`. -/
def isqrtFuel (fuel n : Nat) : Nat :=
  match fuel with
  | 0 => n
  | fuel + 1 =>
    if n < 2 then n
    else
      let small := isqrtFuel fuel (n / 4) * 2
      let large := small + 1
      if n < (large * large) % 4294967296 then small else large

/-- Integer square root as in the source (see `isqrtFuel`). -/
def isqrt (n : Nat) : Nat := isqrtFuel n n

/-- `CurveEvaluator::bezier1D` (`src/curve.cpp` lines 18–31): quadratic
Bézier at fixed-point `t` (0–1024), round-to-nearest by adding `2^19`
before the arithmetic shift by 20. -/
def bezier1D (p0 c p1 t : Int) : Int :=
  let invT := 1024 - t
  (invT * invT * p0 + 2 * invT * t * c + t * t * p1 + 524288).fdiv 1048576

/-- `CurveEvaluator::solveT` (`src/curve.cpp` lines 39–79): solve
`x(t) = x_in` for `t` on the 0–1024 scale via the quadratic formula with
`isqrt`, with the source's root selection and tolerant-clamp fallbacks. -/
def solveT (x0 cx x1 x_in : Int) : Int :=
  let A := x0 - 2 * cx + x1
  let B := 2 * cx - 2 * x0
  let C := x0 - x_in
  if A = 0 then
    if B = 0 then 0
    else Int.tdiv (-C * 1024) B
  else
    let delta := B * B - 4 * A * C
    if delta < 0 then 0
    else
      let sqrtDelta : Int := Int.ofNat (isqrt delta.toNat)
      let t1 := Int.tdiv ((-B + sqrtDelta) * 1024) (2 * A)
      let t2 := Int.tdiv ((-B - sqrtDelta) * 1024) (2 * A)
      if 0 ≤ t1 ∧ t1 ≤ 1024 then t1
      else if 0 ≤ t2 ∧ t2 ≤ 1024 then t2
      else if t1 < 0 ∧ -50 < t1 then 0
      else if 1024 < t1 ∧ t1 < 1074 then 1024
      else if 0 < t1 then t1 else 0

/-- `CurveEvaluator::evalSegment` (`src/curve.cpp` lines 81–97). -/
def evalSegment (p0 c0 p1 : CurvePoint) (x : Nat) : Nat :=
  let t := solveT p0.x c0.x p1.x x
  let y := bezier1D p0.y c0.y p1.y t
  (if y < 0 then 0 else if 255 < y then 255 else y).toNat

/-- The segment-search loop of `CurveEvaluator::eval` (`src/curve.cpp`
lines 106–114).  The loop runs `i` from 0 while `i < count - 1`; `fuel`
(initialised to `count`) dominates the iteration count, and on exhaustion
or loop exit the last point's `y` is returned (lines 118). -/
def evalLoop (fuel : Nat) (curve : Curve) (x i : Nat) : Nat :=
  match fuel with
  | 0 => (curve.points.getD (curve.count - 1) ⟨0, 0⟩).y
  | fuel + 1 =>
    if i < curve.count - 1 then
      if x ≤ (curve.points.getD (i + 1) ⟨0, 0⟩).x then
        evalSegment (curve.points.getD i ⟨0, 0⟩) (curve.controls.getD i ⟨0, 0⟩)
          (curve.points.getD (i + 1) ⟨0, 0⟩) x
      else evalLoop fuel curve x (i + 1)
    else (curve.points.getD (curve.count - 1) ⟨0, 0⟩).y

/-- `CurveEvaluator::eval` (`src/curve.cpp` lines 99–119): fewer than two
points degenerates to the identity; otherwise find the first segment with
`x ≤ points[i+1].x` and evaluate it, clamping to the last point's `y`
beyond the end. -/
def eval (curve : Curve) (x : Nat) : Nat :=
  if curve.count < 2 then x else evalLoop curve.count curve x 0

end CurveEvaluator

/-- The default linear curve of C7: points `(0,0),(255,255)`, control
`(127,127)`, count 2. -/
def defaultLinearCurve : Curve :=
  { count := 2
    points := [⟨0, 0⟩, ⟨255, 255⟩]
    controls := [⟨127, 127⟩] }

/-! ### `float` arithmetic

The source stores Float32 parameter values.  A `float` value is modelled
as a rational; each arithmetic operation rounds its exact result to
IEEE-754 binary32 precision (24-bit significand, round-to-nearest with
ties to even).  The exponent range is unbounded: no value near
overflow/underflow appears in any concrete input evaluated below, and the
general theorems only use the relative-error bound `|round32 q − q| ≤
|q| / 2^24`, which binary32 satisfies throughout its normal range. -/

/-- Round half to even: the integer nearest to `q`, ties to the even
one. -/
def rnd2Int (q : ℚ) : Int :=
  let n := ⌊q⌋
  let f := q - n
  if f < 1/2 then n
  else if 1/2 < f then n + 1
  else if n % 2 = 0 then n else n + 1

/-- Round a rational to binary32 precision: snap to the nearest multiple
of `2^(e-23)` where `2^e ≤ |q| < 2^(e+1)`. -/
def round32 (q : ℚ) : ℚ :=
  if q = 0 then 0
  else (rnd2Int (q / 2 ^ (Int.log 2 |q| - 23))) * 2 ^ (Int.log 2 |q| - 23)

/-- Binary32 `+`. -/
def f32add (a b : ℚ) : ℚ := round32 (a + b)

/-- Binary32 `-`. -/
def f32sub (a b : ℚ) : ℚ := round32 (a - b)

/-- Binary32 `*`. -/
def f32mul (a b : ℚ) : ℚ := round32 (a * b)

/-- Binary32 `/`. -/
def f32div (a b : ℚ) : ℚ := round32 (a / b)

/-! ### Module parameter data model (`src/common.hpp`)

`ModuleParameterValue` and `ModuleParameterMinMax` are C unions whose
active arm is always selected by the owning parameter's declared
`dataType` (spec §3: the wire format is never self-describing).  They are
modelled as sum types; a C read of the wrong arm would reinterpret raw
bytes and is outside the model — every function below returns its
fall-through/default result in such a mismatch case, and every theorem's
hypotheses pin the matching arm. -/

/-- `ModuleParameterDataType` (`PARAM_TYPE_INT/FLOAT/BOOL/LED`). -/
inductive ModuleParameterDataType where
  | int | float | bool | led
deriving DecidableEq, Repr

/-- `ModuleParameterValue` (int32 / float / uint8 bool / LEDValue). -/
inductive ModuleParameterValue where
  | int (v : Int)
  | float (v : ℚ)
  | bool (v : Nat)
  | led (r g b status : Nat)
deriving DecidableEq, Repr

/-- `ModuleParameterMinMax` (int32 pair / float pair / LEDRange). -/
inductive ModuleParameterMinMax where
  | ints (intMin intMax : Int)
  | floats (floatMin floatMax : ℚ)
  | leds (rMin rMax gMin gMax bMin bMax : Nat)
deriving DecidableEq, Repr

/-- `ModuleParameter` (the `name` field is never read by verified code
paths and is omitted). -/
structure ModuleParameter where
  id : Nat
  dataType : ModuleParameterDataType
  access : Nat
  value : ModuleParameterValue
  minMax : ModuleParameterMinMax
deriving DecidableEq, Repr

/-- A zero-initialised parameter slot of the fixed `parameters[32]`
array (reads past `parameterCount` are guarded in every verified
function). -/
def defaultParameter : ModuleParameter :=
  { id := 0, dataType := .int, access := 0, value := .int 0, minMax := .ints 0 0 }

/-- `Module` descriptor — only the fields read by the verified code
paths. -/
structure Module where
  capabilities : Nat
  parameterCount : Nat
  parameters : List ModuleParameter
deriving DecidableEq, Repr

/-- `Port` (`src/common.hpp`) — only the fields read by the verified code
paths; the transport handle is `serialOpen` (`serial != nullptr`). -/
structure Port where
  row : Nat
  col : Nat
  hasModule : Bool
  module : Module
  orientation : Nat
  configured : Bool
deriving DecidableEq, Repr

/-- Two's-complement wrap of a mathematical integer into `int32_t`
(`[-2^31, 2^31)`) — the behaviour of the gcc/ARM target on signed
overflow. -/
def wrap32 (x : Int) : Int := (x + 2 ^ 31) % 2 ^ 32 - 2 ^ 31

/-- `flipValue` (`src/module_task.cpp` lines 191–224): mirror a value
about its declared range midpoint (`max + min − value`); booleans are
never flipped; guarded on `hasModule` and `pid < parameterCount`. -/
def flipValue (port : Port) (pid : Nat) (dt : ModuleParameterDataType)
    (v : ModuleParameterValue) : ModuleParameterValue :=
  if ¬ port.hasModule ∨ port.module.parameterCount ≤ pid then v
  else
    match dt, (port.module.parameters.getD pid defaultParameter).minMax, v with
    | .bool, _, _ => v
    | .int, .ints mn mx, .int x => .int (wrap32 (mx + mn - x))
    | .float, .floats mn mx, .float x => .float (f32sub (f32add mx mn) x)
    | _, _, _ => v

/-- `normalizeToU8` (`src/module_task.cpp` lines 226–268): map a typed
value to `[0,255]` using the declared range.  Divisions are modelled as
partial (`none` on a zero divisor) and the C float→`uint8_t` cast, which
is undefined outside `(-1, 256)`, as partial truncation — the theorems
show `none` is never produced.  The `int32_t` subtractions `val - mn` and
`mx - mn` wrap (`wrap32`); the `(int64_t)` cast happens after that wrap,
the `* 255` and the division are then exact, and the `uint8_t` cast of
the `int64_t` quotient is mod 256. -/
def normalizeToU8 (port : Port) (pid : Nat) (dt : ModuleParameterDataType)
    (v : ModuleParameterValue) : Option Nat :=
  if ¬ port.hasModule ∨ port.module.parameterCount ≤ pid then some 0
  else
    match dt, (port.module.parameters.getD pid defaultParameter).minMax, v with
    | .bool, _, .bool b => some (if b ≠ 0 then 255 else 0)
    | .int, .ints mn mx, .int x =>
      if mx ≤ mn then some 0
      else
        let val := if x < mn then mn else if mx < x then mx else x
        let den := wrap32 (mx - mn)
        if den = 0 then none
        else some ((Int.tdiv (wrap32 (val - mn) * 255) den % 256).toNat)
    | .float, .floats mn mx, .float x =>
      if mx ≤ mn then some 0
      else
        let val := if x < mn then mn else if mx < x then mx else x
        let den := f32sub mx mn
        if den = 0 then none
        else
          let q := f32div (f32mul (f32sub val mn) 255) den
          if 0 ≤ q ∧ q < 256 then some ⌊q⌋.toNat else none
    | _, _, _ => some 0

/-! ### Parameter-response handling and event throttling
(`src/module_task.cpp` lines 116–164, 1243–1336, 1343–1398) -/

/-- `uint32_t` subtraction `a - b` (wraparound), for `a, b < 2^32`. -/
def u32sub (a b : Nat) : Nat := (a + 2 ^ 32 - b) % 2 ^ 32

/-- `PARAM_EVENT_THROTTLE_MS` (`src/module_task.cpp` line 27). -/
def PARAM_EVENT_THROTTLE_MS : Nat := 100

/-- `isValueInRange` (lines 116–127): Int32/Float32 are compared against
the declared min/max; every other type is always in range (the C
`default:` arm). -/
def isValueInRange (p : ModuleParameter) (v : ModuleParameterValue) : Bool :=
  match p.dataType, p.minMax, v with
  | .int, .ints mn mx, .int x => decide (mn ≤ x ∧ x ≤ mx)
  | .float, .floats mn mx, .float x => decide (mn ≤ x ∧ x ≤ mx)
  | _, _, _ => true

/-- `getResetValue` (lines 129–147): the declared minimum for
Int32/Float32, `0` for bool; the value-initialised union (`intValue = 0`)
otherwise. -/
def getResetValue (p : ModuleParameter) : ModuleParameterValue :=
  match p.dataType, p.minMax with
  | .int, .ints mn _ => .int mn
  | .float, .floats mn _ => .float mn
  | .bool, _ => .bool 0
  | _, _ => .int 0

/-- `valueEquals` (lines 149–164).  The C float comparison is a `memcmp`
of the two binary32 patterns; in this model every float value has exactly
one representation, so it is value equality. -/
def valueEquals (dt : ModuleParameterDataType) (a b : ModuleParameterValue) : Bool :=
  match dt, a, b with
  | .bool, .bool x, .bool y => decide (x = y)
  | .int, .int x, .int y => decide (x = y)
  | .float, .float x, .float y => decide (x = y)
  | .led, .led r1 g1 b1 s1, .led r2 g2 b2 s2 =>
    decide (r1 = r2 ∧ g1 = g2 ∧ b1 = b2 ∧ s1 = s2)
  | _, _, _ => false

/-- One host-visible side effect of the parameter-update path: the
`param_out_of_range` event print, a `sendSetParameter` call, an
`applyMappingToUsb` call, and the `param_changed` event print. -/
inductive HostOutput where
  | paramOutOfRange (pid : Nat)
  | setParameter (pid : Nat) (dt : ModuleParameterDataType) (v : ModuleParameterValue)
  | applyMapping (pid : Nat)
  | paramChanged (pid : Nat) (v : ModuleParameterValue)
deriving DecidableEq, Repr

/-- Recogniser for `param_changed` outputs. -/
def isParamChanged : HostOutput → Bool
  | .paramChanged _ _ => true
  | _ => false

/-- The per-`(row, col, pid)` throttle/cache state of `module_task.cpp`
(the `lastValueValid`/`lastValue`/`lastEventTimeMs`/`lastChangeTimeMs`/
`hasPendingEvent`/`pendingEventValue`/`pendingEventDataType` arrays). -/
structure ParamState where
  lastValueValid : Bool
  lastValue : ModuleParameterValue
  lastEventTimeMs : Nat
  lastChangeTimeMs : Nat
  hasPendingEvent : Bool
  pendingEventValue : ModuleParameterValue
  pendingEventDataType : ModuleParameterDataType
deriving DecidableEq, Repr

/-- The OK `GET_PARAMETER` response handler (`loop1`, lines 1243–1336),
after `parseValueFromResponse` has produced the decoded value `cur`:
range-check, out-of-range recovery (event + corrective `SetParameter` of
the reset value, no cache update), duplicate suppression, cache update,
mapping application, and the 100 ms event throttle. -/
def handleParamValue (port : Port) (st : ParamState) (pid : Nat)
    (cur : ModuleParameterValue) (now : Nat) : Port × ParamState × List HostOutput :=
  if ¬ port.hasModule ∨ port.module.parameterCount ≤ pid then (port, st, [])
  else
    let p := port.module.parameters.getD pid defaultParameter
    if ¬ isValueInRange p cur then
      (port, st, [.paramOutOfRange pid, .setParameter pid p.dataType (getResetValue p)])
    else if st.lastValueValid ∧ valueEquals p.dataType cur st.lastValue then
      (port, st, [])
    else
      let port' := { port with module := { port.module with
        parameters := port.module.parameters.set pid { p with value := cur } } }
      if PARAM_EVENT_THROTTLE_MS ≤ u32sub now st.lastEventTimeMs then
        (port',
         { st with lastValue := cur, lastValueValid := true,
                   lastChangeTimeMs := now, lastEventTimeMs := now,
                   hasPendingEvent := false },
         [.applyMapping pid, .paramChanged pid cur])
      else
        (port',
         { st with lastValue := cur, lastValueValid := true,
                   lastChangeTimeMs := now, hasPendingEvent := true,
                   pendingEventValue := cur, pendingEventDataType := p.dataType },
         [.applyMapping pid])

/-- The pending-event sweep for one `(row, col, pid)` cell (`loop1`,
lines 1343–1398): once 100 ms have passed since the last change, emit the
pending value and clear the flag. -/
def sweepPending (port : Port) (pid : Nat) (st : ParamState) (now : Nat) :
    ParamState × List HostOutput :=
  if port.hasModule ∧ pid < port.module.parameterCount ∧ pid < 32 ∧ st.hasPendingEvent
      ∧ PARAM_EVENT_THROTTLE_MS ≤ u32sub now st.lastChangeTimeMs then
    ({ st with hasPendingEvent := false, lastEventTimeMs := now },
     [.paramChanged pid st.pendingEventValue])
  else (st, [])

/-- One observable step of the throttle machinery for a fixed cell: an
accepted decoded value at time `now`, or one pending-sweep pass at `now`. -/
inductive ThrottleStep where
  | change (now : Nat) (v : ModuleParameterValue)
  | sweep (now : Nat)
deriving DecidableEq, Repr

/-- Run a list of throttle steps, collecting host outputs in order. -/
def runThrottle (pid : Nat) : Port × ParamState → List ThrottleStep →
    (Port × ParamState) × List HostOutput
  | s, [] => (s, [])
  | (port, st), .change now v :: rest =>
    let r := handleParamValue port st pid v now
    let k := runThrottle pid (r.1, r.2.1) rest
    (k.1, r.2.2 ++ k.2)
  | (port, st), .sweep now :: rest =>
    let r := sweepPending port pid st now
    let k := runThrottle pid (port, r.1) rest
    (k.1, r.2 ++ k.2)

/-- A burst tail relative to first-notification time `e`: every change is
in range, differs from the previous accepted value, and arrives within
the 100 ms throttle window of `e`. -/
def burstOk (port : Port) (pid : Nat) (e : Nat) :
    ModuleParameterValue → List (Nat × ModuleParameterValue) → Bool
  | _, [] => true
  | w, (t, v) :: rest =>
    isValueInRange (port.module.parameters.getD pid defaultParameter) v
      && ! valueEquals (port.module.parameters.getD pid defaultParameter).dataType v w
      && decide (u32sub t e < PARAM_EVENT_THROTTLE_MS)
      && burstOk port pid e v rest

/-! ### GetProperties retry (`src/module_task.cpp` lines 22–23,
1058–1075, 1113–1139) -/

/-- `PROPS_RETRY_INTERVAL_MS` (line 22). -/
def PROPS_RETRY_INTERVAL_MS : Nat := 50

/-- `PROPS_MAX_ATTEMPTS` (line 23). -/
def PROPS_MAX_ATTEMPTS : Nat := 10

/-- The per-port lifecycle state read by the retry failsafe:
`hasModule` plus the `propsRequestAttempts`/`lastPropsRequestMs`/
`propsRequested`/`connectionTime` arrays. -/
structure PropsState where
  hasModule : Bool
  propsRequestAttempts : Nat
  lastPropsRequestMs : Nat
  propsRequested : Bool
  connectionTime : Nat
deriving DecidableEq, Repr

/-- One pass of the GetProperties failsafe (`loop1` lines 1058–1075) for
one configured port; returns the times at which `sendGetProperties` was
called (at most one per pass). -/
def propsRetryTick (st : PropsState) (now : Nat) : PropsState × List Nat :=
  if ¬ st.hasModule ∧ st.propsRequestAttempts < PROPS_MAX_ATTEMPTS then
    if st.propsRequestAttempts = 0
        ∨ PROPS_RETRY_INTERVAL_MS ≤ u32sub now st.lastPropsRequestMs then
      ({ st with propsRequested := true,
                 connectionTime := if st.propsRequestAttempts = 0 then now else st.connectionTime,
                 propsRequestAttempts := st.propsRequestAttempts + 1,
                 lastPropsRequestMs := now },
       [now])
    else (st, [])
  else if st.hasModule then
    ({ st with propsRequested := true, propsRequestAttempts := PROPS_MAX_ATTEMPTS }, [])
  else (st, [])

/-- Minimum `payloadLength` the GetProperties response guard accepts
(`loop1` line 1115): `1 + offsetof(Module, parameterCount) + 1` with
`offsetof(Module, parameterCount) = 88` on the packed wire layout. -/
def GETPROPS_MIN_RESPONSE_LEN : Nat := 1 + 88 + 1

/-- The response guard of `loop1` lines 1113–1115: status `OK`, in
response to `CMD_GET_PROPERTIES`, and payload at least
`GETPROPS_MIN_RESPONSE_LEN` bytes. -/
def acceptsGetProperties (statusOk inRespGetProps : Bool) (payloadLength : Nat) : Bool :=
  statusOk && inRespGetProps && decide (GETPROPS_MIN_RESPONSE_LEN ≤ payloadLength)

/-- The `hasModule := true` transition of the GetProperties response
handler (lines 1113–1139), guarded by `acceptsGetProperties`; a response
failing the guard changes nothing. -/
def handlePropsResponse (st : PropsState) (statusOk inRespGetProps : Bool)
    (payloadLength : Nat) : PropsState :=
  if acceptsGetProperties statusOk inRespGetProps payloadLength then
    { st with hasModule := true }
  else st

/-- One event seen by a port's lifecycle slice: a `loop1` pass at time
`now`, or an inbound response frame with the given guard ingredients. -/
inductive PropsStep where
  | tick (now : Nat)
  | response (statusOk inRespGetProps : Bool) (payloadLength : Nat)
deriving DecidableEq, Repr

/-- Run a list of lifecycle events, collecting `sendGetProperties` call
times in order. -/
def runProps : PropsState → List PropsStep → PropsState × List Nat
  | st, [] => (st, [])
  | st, .tick now :: rest =>
    let r := propsRetryTick st now
    let k := runProps r.1 rest
    (k.1, r.2 ++ k.2)
  | st, .response ok ir len :: rest => runProps (handlePropsResponse st ok ir len) rest

/-- Adjacent `sendGetProperties` call times are at least
`PROPS_RETRY_INTERVAL_MS` apart (in wrapping `uint32_t` time). -/
def chainSpaced : List Nat → Bool
  | [] => true
  | [_] => true
  | t1 :: t2 :: rest =>
    decide (PROPS_RETRY_INTERVAL_MS ≤ u32sub t2 t1) && chainSpaced (t2 :: rest)

/-- Every send time in the list keeps the retry spacing from the given
previous send time onward. -/
def spacedFrom : Nat → List Nat → Bool
  | _, [] => true
  | last, t :: rest => decide (PROPS_RETRY_INTERVAL_MS ≤ u32sub t last) && spacedFrom t rest

/-- No response in the event list passes the GetProperties guard (the
module never validly answers). -/
def noValidPropsResponse : List PropsStep → Bool
  | [] => true
  | .tick _ :: rest => noValidPropsResponse rest
  | .response ok ir len :: rest =>
    !acceptsGetProperties ok ir len && noValidPropsResponse rest

/-! ### Port scan and removal (`src/port.cpp` lines 339–391, 177–212) -/

/-- `RESPONSE_TIMEOUT_MS` (500 ms). -/
def RESPONSE_TIMEOUT_MS : Nat := 500

/-- A `ModuleMapping` entry, reduced to the fields the removal path
reads: its owning grid cell and identifying data. -/
structure Mapping where
  row : Nat
  col : Nat
  paramId : Nat
  action : Nat
deriving DecidableEq, Repr

/-- Zero entry used only as the (never reached) `getD` fallback. -/
def mappingZero : Mapping := { row := 0, col := 0, paramId := 0, action := 0 }

/-- Modelled from the spec: `MappingManager::clearMappingsForPort` is
declared in `mapping.h` but its definition is not in `src/`; spec §9
describes it as a linear scan with the swap-remove-then-don't-increment
idiom over the fixed mapping array.  One loop step at index `i`: a
matching entry is overwritten by the last entry and the array shrinks by
one (the index does not advance); otherwise the index advances.  `fuel`
bounds the iteration count; `length - i` shrinks by one each step, so
`fuel = length` suffices. -/
def clearMappingsLoop (r c : Nat) : Nat → Nat → List Mapping → List Mapping
  | _, 0, ms => ms
  | i, fuel + 1, ms =>
    if i < ms.length then
      if (ms.getD i mappingZero).row = r ∧ (ms.getD i mappingZero).col = c then
        clearMappingsLoop r c i fuel ((ms.set i (ms.getD (ms.length - 1) mappingZero)).dropLast)
      else clearMappingsLoop r c (i + 1) fuel ms
    else ms

/-- Modelled from the spec: delete every mapping owned by cell `(r, c)`
(spec §4.2 removal, §9 swap-remove idiom). -/
def clearMappingsForPort (r c : Nat) (ms : List Mapping) : List Mapping :=
  clearMappingsLoop r c 0 ms.length ms

/-- `Module{}` value initialisation: the fixed `parameters[32]` array
zeroes to entries never read behind `parameterCount = 0`, modelled as the
empty list. -/
def emptyModule : Module := { capabilities := 0, parameterCount := 0, parameters := [] }

/-- The state of one scanned port cell: the `Port` (with
`serial != nullptr` as `serialOpen`), its liveness timestamps, and the
global mapping table. -/
structure ScanState where
  port : Port
  serialOpen : Bool
  lastHeardMs : Nat
  lastRxHighMs : Nat
  lastPingSentMs : Nat
  mappings : List Mapping
deriving DecidableEq, Repr

/-- `removePort` (`src/port.cpp` lines 177–212): no-op unless the port is
configured with an open transport; otherwise close the transport, clear
`configured`/`hasModule`, zero the module descriptor, delete the cell's
mappings, and zero the liveness timestamps. -/
def removePort (s : ScanState) : ScanState :=
  if ¬ s.port.configured ∨ ¬ s.serialOpen then s
  else
    { port := { s.port with configured := false, hasModule := false, module := emptyModule },
      serialOpen := false,
      lastHeardMs := 0, lastRxHighMs := 0, lastPingSentMs := 0,
      mappings := clearMappingsForPort s.port.row s.port.col s.mappings }

/-- One `scanPorts` pass over one configured cell (`src/port.cpp` lines
348–388, after `configurePortIfDetected`): opportunistically sample the
RX line (`rxHighNow`), then remove the port iff a frame has been heard
(`lastHeardMs` nonzero) but more than 500 ms ago, and the RX line has
never been seen high (`lastRxHighMs = 0`) or not within 500 ms. -/
def scanPortStep (s : ScanState) (now : Nat) (rxHighNow : Bool) : ScanState :=
  if ¬ s.port.configured ∨ ¬ s.serialOpen then s
  else
    let s1 := if rxHighNow then { s with lastRxHighMs := now } else s
    if (s1.lastHeardMs ≠ 0 ∧ RESPONSE_TIMEOUT_MS < u32sub now s1.lastHeardMs)
        ∧ (s1.lastRxHighMs = 0 ∨ RESPONSE_TIMEOUT_MS < u32sub now s1.lastRxHighMs) then
      removePort s1
    else s1

end PiControl

/-! ## General lemmas and claim theorems -/

namespace PiControl

theorem feed_acc (l : List Nat) (p : SerialParser) (acc : List Frame) (now : Nat) :
    l.foldl (fun a b => let r := processByte a.1 b now; (r.1, a.2 ++ r.2.toList)) (p, acc)
      = ((feed p l now).1, acc ++ (feed p l now).2) := by
  induction l generalizing p acc with
  | nil => simp [feed]
  | cons a t ih =>
      simp only [feed, List.foldl_cons] at *
      rw [ih, ih ((processByte p a now).1) (List.nil ++ _)]
      simp

theorem feed_append (p : SerialParser) (l1 l2 : List Nat) (now : Nat) :
    feed p (l1 ++ l2) now
      = ((feed (feed p l1 now).1 l2 now).1,
         (feed p l1 now).2 ++ (feed (feed p l1 now).1 l2 now).2) := by
  unfold feed
  rw [List.foldl_append, feed_acc]
  rfl

theorem feed_cons (p : SerialParser) (a : Nat) (t : List Nat) (now : Nat) :
    feed p (a :: t) now
      = ((feed (processByte p a now).1 t now).1,
         (processByte p a now).2.toList ++ (feed (processByte p a now).1 t now).2) := by
  unfold feed
  simp only [List.foldl_cons]
  rw [feed_acc]
  rfl

theorem foldl_mod_add (m : Nat) (l : List Nat) (s : Nat) :
    l.foldl (fun c b => (c + b) % m) (s % m) = (s + l.sum) % m := by
  induction l generalizing s with
  | nil => simp
  | cons a t ih =>
      simp only [List.foldl_cons, List.sum_cons]
      rw [Nat.mod_add_mod, ih]
      congr 1
      omega

theorem calcChecksum_eq_sum (l : List Nat) : calcChecksum l = l.sum % 256 := by
  unfold calcChecksum
  have h := foldl_mod_add 65536 l 0
  simp only [Nat.zero_mod, Nat.zero_add] at h
  rw [h, Nat.mod_mod_of_dvd]
  exact ⟨256, rfl⟩

theorem processByte_fill (p : SerialParser) (a now : Nat)
    (hs : p.syncing = true) (h4 : 4 ≤ p.buffer.length)
    (hlt : p.buffer.length + 1 < p.expectedLength)
    (hcap : p.expectedLength ≤ PARSER_BUFFER_CAP) :
    processByte p a now
      = ({ p with buffer := p.buffer ++ [a], lastByteReceivedTime := now }, none) := by
  have hc1 : ¬ (PARSER_BUFFER_CAP ≤ p.buffer.length) := by omega
  have hc2 : ¬ ((p.buffer ++ [a]).length = 4) := by
    simp only [List.length_append, List.length_cons, List.length_nil]
    omega
  have hc3 : ¬ (0 < p.expectedLength ∧ (p.buffer ++ [a]).length = p.expectedLength) := by
    simp only [List.length_append, List.length_cons, List.length_nil]
    omega
  unfold processByte
  rw [if_pos hs, if_neg hc1, if_neg hc2, if_neg hc3]

theorem feed_fill (l : List Nat) (p : SerialParser) (now : Nat)
    (hs : p.syncing = true) (h4 : 4 ≤ p.buffer.length)
    (hlt : p.buffer.length + l.length < p.expectedLength)
    (hcap : p.expectedLength ≤ PARSER_BUFFER_CAP) :
    (feed p l now).2 = [] ∧
    (feed p l now).1.syncing = true ∧
    (feed p l now).1.buffer = p.buffer ++ l ∧
    (feed p l now).1.expectedLength = p.expectedLength := by
  induction l generalizing p with
  | nil => exact ⟨rfl, hs, by simp [feed], rfl⟩
  | cons a t ih =>
      have hstep := processByte_fill p a now hs h4 (by simp at hlt; omega) hcap
      rw [feed_cons, hstep]
      have ih' := ih { p with buffer := p.buffer ++ [a], lastByteReceivedTime := now }
        (by simp [hs]) (by simp; omega) (by simp at hlt ⊢; omega) hcap
      simp only [Option.toList_none, List.nil_append] at *
      refine ⟨ih'.1, ih'.2.1, ?_, ih'.2.2.2⟩
      rw [ih'.2.2.1]
      simp

theorem processByte_complete (p : SerialParser) (a now : Nat)
    (hs : p.syncing = true) (h4 : 4 ≤ p.buffer.length)
    (hE : p.buffer.length + 1 = p.expectedLength)
    (hcap : p.expectedLength ≤ PARSER_BUFFER_CAP) :
    processByte p a now
      = (resetParser,
         if a = calcChecksum p.buffer then
           emitFrame { p with buffer := p.buffer ++ [a], lastByteReceivedTime := now }
         else none) := by
  have hc1 : ¬ (PARSER_BUFFER_CAP ≤ p.buffer.length) := by omega
  have hc2 : ¬ ((p.buffer ++ [a]).length = 4) := by
    simp only [List.length_append, List.length_cons, List.length_nil]
    omega
  have hc3 : (0 < p.expectedLength ∧ (p.buffer ++ [a]).length = p.expectedLength) := by
    simp only [List.length_append, List.length_cons, List.length_nil]
    omega
  have hlast : (p.buffer ++ [a]).getLast? = some a := by
    simp [List.getLast?_concat]
  have hdrop : (p.buffer ++ [a]).dropLast = p.buffer := List.dropLast_concat ..
  unfold processByte
  rw [if_pos hs, if_neg hc1, if_neg hc2, if_pos hc3, hlast, hdrop]
  simp only [Option.some.injEq]
  split <;> rfl

end PiControl
namespace PiControl

theorem processByte_pre (p : SerialParser) (a now : Nat)
    (hs : p.syncing = true) (hlen : p.buffer.length ≤ 2)
    (hE : p.expectedLength = 0) :
    processByte p a now
      = ({ p with buffer := p.buffer ++ [a], lastByteReceivedTime := now }, none) := by
  have hc1 : ¬ (PARSER_BUFFER_CAP ≤ p.buffer.length) := by
    simp only [PARSER_BUFFER_CAP, MODULE_MAX_PAYLOAD]
    omega
  have hc2 : ¬ ((p.buffer ++ [a]).length = 4) := by
    simp only [List.length_append, List.length_cons, List.length_nil]
    omega
  have hc3 : ¬ (0 < p.expectedLength ∧ (p.buffer ++ [a]).length = p.expectedLength) := by
    simp [hE]
  unfold processByte
  rw [if_pos hs, if_neg hc1, if_neg hc2, if_neg hc3]

theorem processByte_header (p : SerialParser) (a now : Nat)
    (hs : p.syncing = true) (hlen : p.buffer.length = 3)
    (hok : payloadLenOf (p.buffer ++ [a]) ≤ MODULE_MAX_PAYLOAD) :
    processByte p a now
      = ({ p with buffer := p.buffer ++ [a],
                  expectedLength := 5 + payloadLenOf (p.buffer ++ [a]),
                  lastByteReceivedTime := now }, none) := by
  have hc1 : ¬ (PARSER_BUFFER_CAP ≤ p.buffer.length) := by
    simp only [PARSER_BUFFER_CAP, MODULE_MAX_PAYLOAD]
    omega
  have hc2 : (p.buffer ++ [a]).length = 4 := by
    simp only [List.length_append, List.length_cons, List.length_nil]
    omega
  have hc3 : ¬ (MODULE_MAX_PAYLOAD < payloadLenOf (p.buffer ++ [a])) := by omega
  have hc4 : ¬ (PARSER_BUFFER_CAP < 5 + payloadLenOf (p.buffer ++ [a])) := by
    simp only [PARSER_BUFFER_CAP] at *
    omega
  unfold processByte
  rw [if_pos hs, if_neg hc1, if_pos hc2, if_neg hc3, if_neg hc4]

theorem emitFrame_eq (a b c d : Nat) (rest : List Nat) (E t : Nat) (s : Bool) :
    emitFrame ⟨[a, b, c, d] ++ rest, E, s, t⟩
      = some { commandId := b,
               payloadLength := min (c + 256 * d) MODULE_MAX_PAYLOAD,
               payload := rest.take (min (c + 256 * d) MODULE_MAX_PAYLOAD) } := by
  unfold emitFrame
  rw [if_neg (by simp)]
  simp [List.getD]

/-- C1: frame round trip. -/
theorem frame_roundtrip (cmd : Nat) (payload : List Nat) (now : Nat)
    (hc : cmd < 256) (hp : payload.length ≤ MODULE_MAX_PAYLOAD) :
    feed resetParser (sendMessageBytes cmd payload) now
      = (resetParser,
         [{ commandId := cmd, payloadLength := payload.length, payload := payload }]) := by
  have hn : payload.length ≤ 2048 := hp
  set ck := payload.foldl (fun c b => (c + b) % 256)
    (calcChecksum [0xAA, cmd, payload.length % 256, payload.length / 256 % 256]) with hck
  have henc : sendMessageBytes cmd payload
      = [0xAA, cmd, payload.length % 256, payload.length / 256 % 256] ++ (payload ++ [ck]) := by
    unfold sendMessageBytes
    simp only [Nat.min_eq_left hp, List.take_length, Nat.mod_eq_of_lt hc,
      List.append_assoc, ← hck]
  -- header phase
  have h1 : processByte resetParser 0xAA now = (⟨[0xAA], 0, true, 0⟩, none) := by
    simp [processByte, resetParser]
  have h2 : processByte ⟨[0xAA], 0, true, 0⟩ cmd now
      = (⟨[0xAA, cmd], 0, true, now⟩, none) :=
    processByte_pre _ _ _ rfl (by simp) rfl
  have h3 : processByte ⟨[0xAA, cmd], 0, true, now⟩ (payload.length % 256) now
      = (⟨[0xAA, cmd, payload.length % 256], 0, true, now⟩, none) :=
    processByte_pre _ _ _ rfl (by simp) rfl
  have hpl : payloadLenOf ([0xAA, cmd, payload.length % 256] ++ [payload.length / 256 % 256])
      = payload.length := by
    simp [payloadLenOf, List.getD]
    omega
  have h4 : processByte ⟨[0xAA, cmd, payload.length % 256], 0, true, now⟩
        (payload.length / 256 % 256) now
      = (⟨[0xAA, cmd, payload.length % 256, payload.length / 256 % 256],
          5 + payload.length, true, now⟩, none) := by
    have := processByte_header ⟨[0xAA, cmd, payload.length % 256], 0, true, now⟩
      (payload.length / 256 % 256) now rfl (by simp) (by rw [hpl]; exact hp)
    rw [this, hpl]
    rfl
  have hA : feed resetParser
        [0xAA, cmd, payload.length % 256, payload.length / 256 % 256] now
      = (⟨[0xAA, cmd, payload.length % 256, payload.length / 256 % 256],
          5 + payload.length, true, now⟩, []) := by
    rw [feed_cons, h1, feed_cons, h2, feed_cons, h3, feed_cons, h4]
    simp [feed]
  -- payload phase
  have hB := feed_fill payload
    ⟨[0xAA, cmd, payload.length % 256, payload.length / 256 % 256],
      5 + payload.length, true, now⟩ now rfl
    (by simp) (by simp)
    (by simp only [PARSER_BUFFER_CAP, MODULE_MAX_PAYLOAD]; omega)
  set SB := (feed ⟨[0xAA, cmd, payload.length % 256, payload.length / 256 % 256],
      5 + payload.length, true, now⟩ payload now).1 with hSB
  have hbuf : SB.buffer
      = [0xAA, cmd, payload.length % 256, payload.length / 256 % 256] ++ payload :=
    hB.2.2.1
  have hlen : SB.buffer.length = 4 + payload.length := by
    rw [hbuf]
    simp only [List.length_append, List.length_cons, List.length_nil]
  -- checksum phase
  have hckeq : ck = calcChecksum SB.buffer := by
    rw [hbuf, hck, calcChecksum_eq_sum, calcChecksum_eq_sum, foldl_mod_add,
      List.sum_append]
  have hE2 : SB.expectedLength = 5 + payload.length := hB.2.2.2
  have hC := processByte_complete SB ck now hB.2.1 (by omega)
    (by rw [hlen, hE2]; omega)
    (by rw [hE2]; simp only [PARSER_BUFFER_CAP, MODULE_MAX_PAYLOAD]; omega)
  rw [if_pos hckeq] at hC
  -- the emitted frame
  have hemit : emitFrame { SB with buffer := SB.buffer ++ [ck], lastByteReceivedTime := now }
      = some { commandId := cmd, payloadLength := payload.length, payload := payload } := by
    have hshape : SB.buffer ++ [ck]
        = [0xAA, cmd, payload.length % 256, payload.length / 256 % 256] ++ (payload ++ [ck]) := by
      rw [hbuf, List.append_assoc]
    have hmin : min (payload.length % 256 + 256 * (payload.length / 256 % 256)) MODULE_MAX_PAYLOAD
        = payload.length := by
      have h2048 : MODULE_MAX_PAYLOAD = 2048 := rfl
      omega
    have := emitFrame_eq 0xAA cmd (payload.length % 256) (payload.length / 256 % 256)
      (payload ++ [ck]) SB.expectedLength now SB.syncing
    rw [hmin, List.take_left' rfl] at this
    have hEq : ({ SB with buffer := SB.buffer ++ [ck], lastByteReceivedTime := now } : SerialParser)
        = ⟨[0xAA, cmd, payload.length % 256, payload.length / 256 % 256]
            ++ (payload ++ [ck]), SB.expectedLength, SB.syncing, now⟩ := by
      rw [← hshape]
    rw [hEq]
    exact this
  -- assemble
  rw [henc, feed_append, hA]
  simp only [List.nil_append]
  rw [feed_append, ← hSB, hB.1]
  have hsingle : feed SB [ck] now
      = ((processByte SB ck now).1, (processByte SB ck now).2.toList) := by
    rw [feed_cons]
    simp [feed]
  rw [hsingle, hC, hemit]
  simp

end PiControl

namespace PiControl

/-- C1: for every command id and every payload of length at most
`MaxPayload` (2048), feeding the bytes produced by the frame encoder
(`sendMessage`) one at a time into the stream decoder (`processByte`),
starting from the decoder's reset state, yields exactly one decoded frame
whose commandId and payload equal the encoded input — and the decoder is
back in its reset state afterwards. -/
theorem frame_encode_decode_roundtrip (cmd : Nat) (payload : List Nat) (now : Nat)
    (hc : cmd < 256) (hp : payload.length ≤ MODULE_MAX_PAYLOAD) :
    feed resetParser (sendMessageBytes cmd payload) now
      = (resetParser,
         [{ commandId := cmd, payloadLength := payload.length, payload := payload }]) :=
  frame_roundtrip cmd payload now hc hp

/-- C1 witness: the round trip at the concrete frame
`GetParameter (0x03)` with payload `[0x2A]`. -/
theorem frame_encode_decode_roundtrip_witness :
    (3 : Nat) < 256 ∧ ([0x2A] : List Nat).length ≤ MODULE_MAX_PAYLOAD ∧
    feed resetParser (sendMessageBytes 3 [0x2A]) 0
      = (resetParser, [{ commandId := 3, payloadLength := 1, payload := [0x2A] }]) :=
  ⟨by decide, by decide,
    frame_encode_decode_roundtrip 3 [0x2A] 0 (by decide) (by decide)⟩

/-- C2 counterexample: the spec's concrete byte sequence
`AA 03 01 00 2A 2E` does NOT decode to a frame — its final byte `2E` is
the sum of the bytes with the START byte left out; the code checksums all
preceding bytes including START (`calcChecksum(p->buffer, p->length - 1)`),
giving `D8`.  The decoder silently drops the sequence. -/
theorem decode_spec_example_bytes_drop :
    (feed resetParser [0xAA, 0x03, 0x01, 0x00, 0x2A, 0x2E] 0).2 = []
    ∧ (feed resetParser [0xAA, 0x03, 0x01, 0x00, 0x2A, 0x2E] 0).2
        ≠ [{ commandId := 0x03, payloadLength := 1, payload := [0x2A] }] := by
  constructor
  · decide
  · decide

/-- C2 (amended): the correctly-checksummed sequence `AA 03 01 00 2A D8`
decodes from reset to exactly one frame `{commandId = GetParameter (0x03),
payload = [0x2A]}`, and the same sequence with any other final byte
yields no frame at all (silently dropped). -/
theorem decode_getParameter_frame :
    (feed resetParser [0xAA, 0x03, 0x01, 0x00, 0x2A, 0xD8] 0).2
      = [{ commandId := 0x03, payloadLength := 1, payload := [0x2A] }]
    ∧ ∀ b : Nat, b ≠ 0xD8 →
        (feed resetParser [0xAA, 0x03, 0x01, 0x00, 0x2A, b] 0).2 = [] := by
  constructor
  · decide
  · intro b hb
    have h5 : feed resetParser [0xAA, 0x03, 0x01, 0x00, 0x2A] 0
        = (⟨[0xAA, 0x03, 0x01, 0x00, 0x2A], 6, true, 0⟩, []) := by decide
    have hsplit : ([0xAA, 0x03, 0x01, 0x00, 0x2A, b] : List Nat)
        = [0xAA, 0x03, 0x01, 0x00, 0x2A] ++ [b] := rfl
    rw [hsplit, feed_append, h5]
    have hstep := processByte_complete ⟨[0xAA, 0x03, 0x01, 0x00, 0x2A], 6, true, 0⟩ b 0
      rfl (by decide) (by decide) (by decide)
    rw [if_neg (by simpa using hb)] at hstep
    have hone : feed (⟨[0xAA, 0x03, 0x01, 0x00, 0x2A], 6, true, 0⟩ : SerialParser) [b] 0
        = (resetParser, []) := by
      rw [feed_cons, hstep]
      simp [feed]
    rw [hone]
    simp

/-- C2 witness: applying the amended theorem's universally-quantified part
at the spec's (incorrect) final byte `2E`. -/
theorem decode_getParameter_frame_witness :
    (0x2E : Nat) ≠ 0xD8 ∧
    (feed resetParser [0xAA, 0x03, 0x01, 0x00, 0x2A, 0x2E] 0).2 = [] :=
  ⟨by decide, decode_getParameter_frame.2 0x2E (by decide)⟩

end PiControl
namespace PiControl

theorem toList_length (q : MessageQueue) : q.toList.length = q.count := by
  simp [MessageQueue.toList]

theorem enqueueFromIRQ_full (q : MessageQueue) (m : Frame) (hfull : q.count = QUEUE_CAP) :
    enqueueFromIRQ q m
      = { slots := fun i => if i = q.head then m else q.slots i,
          head := (q.head + 1) % QUEUE_CAP,
          tail := (q.tail + 1) % QUEUE_CAP,
          count := QUEUE_CAP } := by
  unfold enqueueFromIRQ allocateMessageFromIRQ commitMessageFromIRQ
  rw [if_pos hfull, hfull]
  rfl

theorem enqueueFromIRQ_notfull (q : MessageQueue) (m : Frame) (h : ¬ q.count = QUEUE_CAP) :
    enqueueFromIRQ q m
      = { slots := fun i => if i = q.head then m else q.slots i,
          head := (q.head + 1) % QUEUE_CAP,
          tail := q.tail,
          count := q.count + 1 } := by
  unfold enqueueFromIRQ allocateMessageFromIRQ commitMessageFromIRQ
  rw [if_neg h]

theorem enqueue_wf (q : MessageQueue) (m : Frame) (h : q.Wf) :
    (enqueueFromIRQ q m).Wf := by
  obtain ⟨h1, h2, h3, h4⟩ := h
  by_cases hfull : q.count = QUEUE_CAP
  · rw [enqueueFromIRQ_full q m hfull]
    unfold MessageQueue.Wf
    dsimp only
    simp only [QUEUE_CAP] at *
    omega
  · rw [enqueueFromIRQ_notfull q m hfull]
    unfold MessageQueue.Wf
    dsimp only
    simp only [QUEUE_CAP] at *
    omega

theorem enqueue_toList (q : MessageQueue) (m : Frame) (h : q.Wf) :
    (enqueueFromIRQ q m).toList
      = (if q.count = QUEUE_CAP then q.toList.drop 1 else q.toList) ++ [m] := by
  obtain ⟨h1, h2, h3, h4⟩ := h
  simp only [QUEUE_CAP] at h1 h2 h3 h4
  by_cases hfull : q.count = QUEUE_CAP
  · have hc16 : q.count = 16 := hfull
    rw [enqueueFromIRQ_full q m hfull, if_pos hfull]
    simp only [MessageQueue.toList, hc16, QUEUE_CAP]
    have hRHS : (List.map (fun i => q.slots ((q.tail + i) % 16)) (List.range 16)).drop 1
        = List.map (fun j => q.slots ((q.tail + (j + 1)) % 16)) (List.range 15) := by
      rw [show (16 : Nat) = 15 + 1 from rfl, List.range_succ_eq_map]
      simp [Function.comp]
    rw [hRHS, show (16 : Nat) = 15 + 1 from rfl, List.range_succ, List.map_append]
    congr 1
    · apply List.map_congr_left
      intro i hi
      simp only [List.mem_range] at hi
      have hne : ¬ ((q.tail + 1) % 16 + i) % 16 = q.head := by omega
      rw [if_neg hne]
      congr 1
      omega
    · simp only [List.map_cons, List.map_nil]
      have hhit : ((q.tail + 1) % 16 + 15) % 16 = q.head := by omega
      rw [if_pos hhit]
  · have hlt : q.count < 16 := by
      simp only [QUEUE_CAP] at hfull
      omega
    rw [enqueueFromIRQ_notfull q m hfull, if_neg hfull]
    simp only [MessageQueue.toList, QUEUE_CAP]
    rw [List.range_succ, List.map_append]
    congr 1
    · apply List.map_congr_left
      intro i hi
      simp only [List.mem_range] at hi
      have hne : ¬ (q.tail + i) % 16 = q.head := by omega
      rw [if_neg hne]
    · simp only [List.map_cons, List.map_nil]
      have hhit : (q.tail + q.count) % 16 = q.head := by omega
      rw [if_pos hhit]

end PiControl
namespace PiControl

theorem getNextMessage_empty (q : MessageQueue) (h0 : q.count = 0) :
    getNextMessage q = none := by
  unfold getNextMessage
  rw [if_pos h0]

theorem getNextMessage_spec (q : MessageQueue) (h : q.Wf) (h0 : 0 < q.count) :
    ∃ q', getNextMessage q = some (clampMessage (q.slots q.tail), q')
      ∧ q.toList = q.slots q.tail :: q'.toList
      ∧ q'.Wf := by
  obtain ⟨h1, h2, h3, h4⟩ := h
  simp only [QUEUE_CAP] at h1 h2 h3 h4
  refine ⟨{ q with tail := (q.tail + 1) % QUEUE_CAP, count := q.count - 1 }, ?_, ?_, ?_⟩
  · unfold getNextMessage
    rw [if_neg (by omega)]
  · obtain ⟨k, hk⟩ : ∃ k, q.count = k + 1 := ⟨q.count - 1, by omega⟩
    simp only [MessageQueue.toList, hk, QUEUE_CAP]
    rw [List.range_succ_eq_map]
    simp only [List.map_cons, List.map_map, Nat.add_zero, Nat.add_sub_cancel]
    congr 1
    · rw [Nat.mod_eq_of_lt h2]
    · apply List.map_congr_left
      intro i hi
      simp only [List.mem_range] at hi
      simp only [Function.comp]
      congr 1
      omega
  · unfold MessageQueue.Wf
    dsimp only
    simp only [QUEUE_CAP]
    omega

theorem enqueueAll_lastN (ms : List Frame) :
    (ms.foldl enqueueFromIRQ emptyQueue).Wf ∧
    (ms.foldl enqueueFromIRQ emptyQueue).toList = ms.drop (ms.length - QUEUE_CAP) := by
  induction ms using List.reverseRecOn with
  | nil =>
      refine ⟨⟨by decide, by decide, by decide, by decide⟩, by decide⟩
  | append_singleton ms m ih =>
      rw [List.foldl_append]
      simp only [List.foldl_cons, List.foldl_nil]
      refine ⟨enqueue_wf _ m ih.1, ?_⟩
      rw [enqueue_toList _ m ih.1, ih.2]
      have hcnt : (ms.foldl enqueueFromIRQ emptyQueue).count
          = (ms.drop (ms.length - QUEUE_CAP)).length := by
        rw [← ih.2, toList_length]
      rw [List.length_drop] at hcnt
      by_cases hbig : QUEUE_CAP ≤ ms.length
      · have hfull : (ms.foldl enqueueFromIRQ emptyQueue).count = QUEUE_CAP := by
          simp only [QUEUE_CAP] at *
          omega
        rw [if_pos hfull, List.drop_drop]
        have harith : ms.length + 1 - QUEUE_CAP = ms.length - QUEUE_CAP + 1 := by
          simp only [QUEUE_CAP] at *
          omega
        rw [List.length_append, List.length_cons, List.length_nil, harith,
          List.drop_append_of_le_length (by simp only [QUEUE_CAP] at *; omega)]
      · have hnf : ¬ (ms.foldl enqueueFromIRQ emptyQueue).count = QUEUE_CAP := by
          simp only [QUEUE_CAP] at *
          omega
        rw [if_neg hnf]
        have h0 : ms.length - QUEUE_CAP = 0 := by
          simp only [QUEUE_CAP] at *
          omega
        have h0' : ms.length + 1 - QUEUE_CAP = 0 := by
          simp only [QUEUE_CAP] at *
          omega
        rw [h0, List.drop_zero, List.length_append, List.length_cons, List.length_nil, h0',
          List.drop_zero]

end PiControl
namespace PiControl

/-- C9: the inbound frame queue holds at most 16 frames; an IRQ-side
enqueue is total (never blocks, never fails) and, when the queue is
already full, drops the oldest queued frame to make room; dequeue returns
the oldest queued frame; from boot, any sequence of enqueues leaves
exactly the most recent 16 frames, in FIFO order. -/
theorem frame_queue_bounded_drop_oldest :
    (∀ q m, q.Wf →
        (enqueueFromIRQ q m).Wf ∧ (enqueueFromIRQ q m).count ≤ QUEUE_CAP ∧
        (enqueueFromIRQ q m).toList
          = (if q.count = QUEUE_CAP then q.toList.drop 1 else q.toList) ++ [m]) ∧
    (∀ q, q.count = 0 → getNextMessage q = none) ∧
    (∀ q, q.Wf → 0 < q.count →
        ∃ q', getNextMessage q = some (clampMessage (q.slots q.tail), q')
          ∧ q.toList = q.slots q.tail :: q'.toList ∧ q'.Wf) ∧
    (∀ ms : List Frame,
        (ms.foldl enqueueFromIRQ emptyQueue).toList
          = ms.drop (ms.length - QUEUE_CAP)) := by
  refine ⟨?_, getNextMessage_empty, getNextMessage_spec,
    fun ms => (enqueueAll_lastN ms).2⟩
  intro q m h
  exact ⟨enqueue_wf q m h, (enqueue_wf q m h).2.2.1, enqueue_toList q m h⟩

/-- C9 witness: one enqueue into the boot-state queue. -/
theorem frame_queue_bounded_drop_oldest_witness :
    emptyQueue.Wf ∧
    (enqueueFromIRQ emptyQueue { commandId := 1, payloadLength := 2, payload := [3, 4] }).toList
      = (if emptyQueue.count = QUEUE_CAP then emptyQueue.toList.drop 1 else emptyQueue.toList)
        ++ [{ commandId := 1, payloadLength := 2, payload := [3, 4] }] :=
  ⟨by decide,
   (frame_queue_bounded_drop_oldest.1 emptyQueue
      { commandId := 1, payloadLength := 2, payload := [3, 4] } (by decide)).2.2⟩

end PiControl

namespace PiControl

set_option maxRecDepth 10000 in
/-- C7 (code bug): the fixed-point Bézier solver does NOT return `x` on
the default linear curve `{points [(0,0),(255,255)], controls [(127,127)],
count 2}`.  With control `(127,127)` the quadratic coefficient is
`A = 0 - 254 + 255 = 1 ≠ 0`, so the quadratic path runs, and the integer
square root `isqrt(64516 + 4x) ∈ {254, 255, 256}` makes
`t = (sqrtΔ - 254) * 1024 / 2` take only the values 0, 512 and 1024: the
evaluator is the step function `x ↦ 0 (x ≤ 127), 127 (128 ≤ x ≤ 254),
255 (x = 255)`.  In particular `eval 1 = 0 ≠ 1`. -/
theorem curve_default_linear_eval :
    CurveEvaluator.eval defaultLinearCurve 1 = 0 ∧
    ¬ CurveEvaluator.eval defaultLinearCurve 1 = 1 ∧
    ∀ x : Fin 256, CurveEvaluator.eval defaultLinearCurve x.val
      = if x.val ≤ 127 then 0 else if x.val ≤ 254 then 127 else 255 := by
  refine ⟨by decide, by decide, by decide⟩

end PiControl

namespace PiControl

/-! ### Binary32 rounding bounds -/

theorem rnd2Int_close (q : ℚ) : |(rnd2Int q : ℚ) - q| ≤ 1/2 := by
  unfold rnd2Int
  dsimp only
  have h0 : (0 : ℚ) ≤ q - ⌊q⌋ := by
    have := Int.floor_le q
    linarith
  have h1 : q - ⌊q⌋ < 1 := by
    have := Int.lt_floor_add_one q
    linarith
  split
  · rw [abs_le]
    constructor <;> linarith
  · rename_i h
    push_neg at h
    split
    · rename_i h2
      push_cast
      rw [abs_le]
      constructor <;> linarith
    · rename_i h2
      push_neg at h2
      split <;> (push_cast; rw [abs_le]; constructor <;> linarith)

theorem round32_zero : round32 0 = 0 := by
  simp [round32]

theorem round32_bounds (q : ℚ) (hq : 0 < q) :
    q - q / 2 ^ 24 ≤ round32 q ∧ round32 q ≤ q + q / 2 ^ 24 := by
  unfold round32
  rw [if_neg (ne_of_gt hq), abs_of_pos hq]
  set e := Int.log 2 q with he
  set s : ℚ := 2 ^ (e - 23) with hs_def
  have hs : 0 < s := by
    rw [hs_def]
    positivity
  have h1 : |(rnd2Int (q / s) : ℚ) - q / s| ≤ 1 / 2 := rnd2Int_close _
  have h2 : |(rnd2Int (q / s) : ℚ) * s - q| ≤ s / 2 := by
    have hrw : (rnd2Int (q / s) : ℚ) * s - q = ((rnd2Int (q / s) : ℚ) - q / s) * s := by
      field_simp
    rw [hrw, abs_mul, abs_of_pos hs]
    have := mul_le_mul_of_nonneg_right h1 (le_of_lt hs)
    linarith
  have hle : (2 : ℚ) ^ e ≤ q := by
    have h := Int.zpow_log_le_self (b := 2) (by norm_num) hq
    rw [he]
    exact_mod_cast h
  have hs24 : s * 2 ^ (24 : ℕ) = 2 ^ e * 2 := by
    rw [hs_def, show ((2 : ℚ) ^ (24 : ℕ)) = (2 : ℚ) ^ ((24 : ℤ)) from (zpow_natCast 2 24).symm,
      ← zpow_add₀ (by norm_num : (2 : ℚ) ≠ 0), show e - 23 + 24 = e + 1 by ring,
      zpow_add₀ (by norm_num : (2 : ℚ) ≠ 0), zpow_one]
  have h3 : s / 2 ≤ q / 2 ^ 24 := by
    rw [div_le_div_iff₀ (by norm_num) (by norm_num : (0 : ℚ) < 2 ^ 24)]
    rw [hs24]
    linarith
  have habs := abs_le.mp h2
  constructor <;> linarith [habs.1, habs.2]

theorem round32_nonneg (q : ℚ) (h : 0 ≤ q) : 0 ≤ round32 q := by
  rcases eq_or_lt_of_le h with h0 | h0
  · rw [← h0, round32_zero]
  · have hb := (round32_bounds q h0).1
    have hlt : q / 2 ^ 24 < q := div_lt_self h0 (by norm_num)
    linarith

theorem round32_pos (q : ℚ) (h : 0 < q) : 0 < round32 q := by
  have hb := (round32_bounds q h).1
  have hlt : q / 2 ^ 24 < q := div_lt_self h (by norm_num)
  linarith

theorem round32_le_of_nonneg (q : ℚ) (h : 0 ≤ q) : round32 q ≤ q + q / 2 ^ 24 := by
  rcases eq_or_lt_of_le h with h0 | h0
  · rw [← h0, round32_zero]
    norm_num
  · exact (round32_bounds q h0).2

/-! ### Concrete binary32 evaluations for the C8 counterexample -/

theorem log_2pow25 : Int.log 2 (33554432 : ℚ) = 25 := by
  rw [Int.log_of_one_le_right _ (by norm_num)]
  have h : ⌊(33554432 : ℚ)⌋₊ = 33554432 := by norm_num
  rw [h, Nat.log_eq_of_pow_le_of_lt_pow (n := 33554432) (m := 25) (by norm_num) (by norm_num)]
  norm_num

theorem log_2pow25m1 : Int.log 2 (33554431 : ℚ) = 24 := by
  rw [Int.log_of_one_le_right _ (by norm_num)]
  have h : ⌊(33554431 : ℚ)⌋₊ = 33554431 := by norm_num
  rw [h, Nat.log_eq_of_pow_le_of_lt_pow (n := 33554431) (m := 24) (by norm_num) (by norm_num)]
  norm_num

theorem round32_2pow25 : round32 33554432 = 33554432 := by
  unfold round32
  rw [if_neg (by norm_num), show |(33554432 : ℚ)| = 33554432 from by norm_num, log_2pow25]
  have hs : ((2 : ℚ) ^ (25 - 23 : ℤ)) = 4 := by norm_num
  rw [hs, show (33554432 : ℚ) / 4 = 8388608 from by norm_num]
  have h : rnd2Int 8388608 = 8388608 := by
    unfold rnd2Int
    dsimp only
    rw [show ⌊(8388608 : ℚ)⌋ = 8388608 from by norm_num]
    norm_num
  rw [h]
  norm_num

theorem round32_2pow25m1 : round32 33554431 = 33554432 := by
  unfold round32
  rw [if_neg (by norm_num), show |(33554431 : ℚ)| = 33554431 from by norm_num, log_2pow25m1]
  have hs : ((2 : ℚ) ^ (24 - 23 : ℤ)) = 2 := by norm_num
  rw [hs]
  have h : rnd2Int (33554431 / 2) = 16777216 := by
    unfold rnd2Int
    dsimp only
    rw [show ⌊(33554431/2 : ℚ)⌋ = 16777215 from by rw [Int.floor_eq_iff] <;> norm_num]
    norm_num
  rw [h]
  norm_num

end PiControl

namespace PiControl

theorem flipValue_guard (port : Port) (pid : Nat) (dt : ModuleParameterDataType)
    (v : ModuleParameterValue)
    (hg : ¬ port.hasModule ∨ port.module.parameterCount ≤ pid) :
    flipValue port pid dt v = v := by
  unfold flipValue
  rw [if_pos hg]

/-- C8 (amended): the midpoint-mirror flip is self-inverse for Int32
values (exactly, in wrapping `int32_t` arithmetic, for every declared
range), and boolean values are never altered.  (For Float32 the involution
fails — see the counterexample.) -/
theorem flip_involution_int_bool :
    (∀ (port : Port) (pid : Nat) (x : Int), -2 ^ 31 ≤ x → x < 2 ^ 31 →
      flipValue port pid .int (flipValue port pid .int (.int x)) = .int x) ∧
    (∀ (port : Port) (pid : Nat) (v : ModuleParameterValue),
      flipValue port pid .bool v = v) := by
  constructor
  · intro port pid x hlo hhi
    by_cases hg : ¬ port.hasModule ∨ port.module.parameterCount ≤ pid
    · rw [flipValue_guard _ _ _ _ hg, flipValue_guard _ _ _ _ hg]
    · rcases hmm : (port.module.parameters.getD pid defaultParameter).minMax with
        ⟨mn, mx⟩ | ⟨mn, mx⟩ | ⟨r1, r2, r3, r4, r5, r6⟩
      · have h1 : flipValue port pid .int (.int x) = .int (wrap32 (mx + mn - x)) := by
          unfold flipValue
          rw [if_neg hg, hmm]
        have h2 : flipValue port pid .int (.int (wrap32 (mx + mn - x)))
            = .int (wrap32 (mx + mn - wrap32 (mx + mn - x))) := by
          unfold flipValue
          rw [if_neg hg, hmm]
        rw [h1, h2]
        congr 1
        unfold wrap32
        omega
      · have h1 : ∀ y : Int, flipValue port pid .int (.int y) = .int y := by
          intro y
          unfold flipValue
          rw [if_neg hg, hmm]
        rw [h1, h1]
      · have h1 : ∀ y : Int, flipValue port pid .int (.int y) = .int y := by
          intro y
          unfold flipValue
          rw [if_neg hg, hmm]
        rw [h1, h1]
  · intro port pid v
    by_cases hg : ¬ port.hasModule ∨ port.module.parameterCount ≤ pid
    · exact flipValue_guard _ _ _ _ hg
    · unfold flipValue
      rw [if_neg hg]

/-- C8 witness: the Int32 involution at a concrete port (range
`[-100, 100]`, value 5) and the boolean no-op. -/
theorem flip_involution_int_bool_witness :
    (-2 ^ 31 : Int) ≤ 5 ∧ (5 : Int) < 2 ^ 31 ∧
    flipValue
      { row := 0, col := 0, hasModule := true,
        module := { capabilities := 2, parameterCount := 1,
                    parameters := [{ id := 0, dataType := .int, access := 3,
                                     value := .int 0, minMax := .ints (-100) 100 }] },
        orientation := 2, configured := true } 0 .int
      (flipValue
        { row := 0, col := 0, hasModule := true,
          module := { capabilities := 2, parameterCount := 1,
                      parameters := [{ id := 0, dataType := .int, access := 3,
                                       value := .int 0, minMax := .ints (-100) 100 }] },
          orientation := 2, configured := true } 0 .int (.int 5)) = .int 5 :=
  ⟨by decide, by decide,
   flip_involution_int_bool.1 _ 0 5 (by decide) (by decide)⟩

/-- C8 counterexample: for a Float32 parameter with declared range
`[0, 2^25]` and the in-range value `1`, the flip applied twice yields `0`,
not `1`: the first flip computes `float(2^25 + 0 - 1) = float(33554431)`,
which rounds (ties-to-even at 24 significant bits) to `2^25`, and the
second flip then yields `2^25 + 0 - 2^25 = 0`. -/
theorem flip_float_not_involutive :
    flipValue
      { row := 0, col := 0, hasModule := true,
        module := { capabilities := 2, parameterCount := 1,
                    parameters := [{ id := 0, dataType := .float, access := 3,
                                     value := .float 1,
                                     minMax := .floats 0 33554432 }] },
        orientation := 2, configured := true } 0 .float
      (flipValue
        { row := 0, col := 0, hasModule := true,
          module := { capabilities := 2, parameterCount := 1,
                      parameters := [{ id := 0, dataType := .float, access := 3,
                                       value := .float 1,
                                       minMax := .floats 0 33554432 }] },
          orientation := 2, configured := true } 0 .float (.float 1))
      = .float 0 ∧
    (ModuleParameterValue.float 0) ≠ .float 1 ∧
    (0 : ℚ) ≤ 1 ∧ (1 : ℚ) ≤ 33554432 := by
  refine ⟨?_, by decide, by decide, by decide⟩
  have hadd : f32add 33554432 0 = 33554432 := by
    unfold f32add
    rw [show (33554432 + 0 : ℚ) = 33554432 from by norm_num, round32_2pow25]
  have h1 : flipValue
      { row := 0, col := 0, hasModule := true,
        module := { capabilities := 2, parameterCount := 1,
                    parameters := [{ id := 0, dataType := .float, access := 3,
                                     value := .float 1,
                                     minMax := .floats 0 33554432 }] },
        orientation := 2, configured := true } 0 .float (.float 1)
      = .float (f32sub (f32add 33554432 0) 1) := rfl
  have h2 : f32sub (f32add 33554432 0) 1 = 33554432 := by
    rw [hadd]
    unfold f32sub
    rw [show (33554432 - 1 : ℚ) = 33554431 from by norm_num, round32_2pow25m1]
  rw [h1, h2]
  have h3 : flipValue
      { row := 0, col := 0, hasModule := true,
        module := { capabilities := 2, parameterCount := 1,
                    parameters := [{ id := 0, dataType := .float, access := 3,
                                     value := .float 1,
                                     minMax := .floats 0 33554432 }] },
        orientation := 2, configured := true } 0 .float (.float 33554432)
      = .float (f32sub (f32add 33554432 0) 33554432) := rfl
  rw [h3, hadd]
  unfold f32sub
  rw [show (33554432 - 33554432 : ℚ) = 0 from by norm_num, round32_zero]

end PiControl
namespace PiControl

theorem f32_norm_chain (mn mx val : ℚ) (h1 : mn < mx) (h2 : mn ≤ val) (h3 : val ≤ mx) :
    0 ≤ f32div (f32mul (f32sub val mn) 255) (f32sub mx mn) ∧
    f32div (f32mul (f32sub val mn) 255) (f32sub mx mn) < 256 := by
  have hd : (0 : ℚ) < mx - mn := by linarith
  have ha0 : (0 : ℚ) ≤ val - mn := by linarith
  have had : val - mn ≤ mx - mn := by linarith
  set A := f32sub val mn with hA_def
  have hA_eq : A = round32 (val - mn) := rfl
  have hA0 : 0 ≤ A := by
    rw [hA_eq]
    exact round32_nonneg _ ha0
  have hA1 : A ≤ (val - mn) + (val - mn) / 2 ^ 24 := by
    rw [hA_eq]
    exact round32_le_of_nonneg _ ha0
  set M := f32mul A 255 with hM_def
  have hM_eq : M = round32 (A * 255) := rfl
  have hM0 : 0 ≤ M := by
    rw [hM_eq]
    exact round32_nonneg _ (by positivity)
  have hM1 : M ≤ A * 255 + A * 255 / 2 ^ 24 := by
    rw [hM_eq]
    exact round32_le_of_nonneg _ (by positivity)
  set D := f32sub mx mn with hD_def
  have hD_eq : D = round32 (mx - mn) := rfl
  have hDlo : (mx - mn) - (mx - mn) / 2 ^ 24 ≤ D := by
    rw [hD_eq]
    exact (round32_bounds _ hd).1
  have hDpos : 0 < D := by
    rw [hD_eq]
    exact round32_pos _ hd
  have hMKD : M ≤ (2551 / 10) * D := by
    nlinarith [hd.le, hA1, hM1, hDlo, ha0, had]
  have hR0 : 0 ≤ M / D := div_nonneg hM0 hDpos.le
  have hR_le : M / D ≤ 2551 / 10 := by
    rw [div_le_iff₀ hDpos]
    linarith
  have hQ_eq : f32div M D = round32 (M / D) := rfl
  constructor
  · rw [hQ_eq]
    exact round32_nonneg _ hR0
  · rw [hQ_eq]
    have hQ1 := round32_le_of_nonneg _ hR0
    linarith

end PiControl
namespace PiControl

theorem normalizeToU8_guard (port : Port) (pid : Nat) (dt : ModuleParameterDataType)
    (v : ModuleParameterValue)
    (hg : ¬ port.hasModule ∨ port.module.parameterCount ≤ pid) :
    normalizeToU8 port pid dt v = some 0 := by
  unfold normalizeToU8
  rw [if_pos hg]

theorem normalizeToU8_int_degenerate (port : Port) (pid : Nat) (mn mx x : Int)
    (hmm : (port.module.parameters.getD pid defaultParameter).minMax = .ints mn mx)
    (hle : mx ≤ mn) :
    normalizeToU8 port pid .int (.int x) = some 0 := by
  by_cases hg : ¬ port.hasModule ∨ port.module.parameterCount ≤ pid
  · exact normalizeToU8_guard _ _ _ _ hg
  · unfold normalizeToU8
    rw [if_neg hg, hmm]
    dsimp only
    rw [if_pos hle]

theorem normalizeToU8_float_degenerate (port : Port) (pid : Nat) (mn mx x : ℚ)
    (hmm : (port.module.parameters.getD pid defaultParameter).minMax = .floats mn mx)
    (hle : mx ≤ mn) :
    normalizeToU8 port pid .float (.float x) = some 0 := by
  by_cases hg : ¬ port.hasModule ∨ port.module.parameterCount ≤ pid
  · exact normalizeToU8_guard _ _ _ _ hg
  · unfold normalizeToU8
    rw [if_neg hg, hmm]
    dsimp only
    rw [if_pos hle]

theorem normalizeToU8_int_ok (port : Port) (pid : Nat) (mn mx x : Int)
    (hmm : (port.module.parameters.getD pid defaultParameter).minMax = .ints mn mx)
    (hlt : mn < mx) (hlo : -2 ^ 31 ≤ mn) (hhi : mx < 2 ^ 31) :
    ∃ r, normalizeToU8 port pid .int (.int x) = some r ∧ r ≤ 255 := by
  by_cases hg : ¬ port.hasModule ∨ port.module.parameterCount ≤ pid
  · exact ⟨0, normalizeToU8_guard _ _ _ _ hg, by omega⟩
  · unfold normalizeToU8
    rw [if_neg hg, hmm]
    dsimp only
    rw [if_neg (by omega : ¬ mx ≤ mn)]
    have hden : ¬ wrap32 (mx - mn) = 0 := by
      unfold wrap32
      omega
    rw [if_neg hden]
    refine ⟨_, rfl, ?_⟩
    have h1 : 0 ≤ Int.tdiv (wrap32 ((if x < mn then mn else if mx < x then mx else x) - mn) * 255)
        (wrap32 (mx - mn)) % 256 := Int.emod_nonneg _ (by norm_num)
    have h2 : Int.tdiv (wrap32 ((if x < mn then mn else if mx < x then mx else x) - mn) * 255)
        (wrap32 (mx - mn)) % 256 < 256 := Int.emod_lt_of_pos _ (by norm_num)
    omega

theorem normalizeToU8_int_exact (port : Port) (pid : Nat) (mn mx x : Int)
    (hmm : (port.module.parameters.getD pid defaultParameter).minMax = .ints mn mx)
    (hpass : port.hasModule ∧ pid < port.module.parameterCount)
    (hlt : mn < mx) (hlo : -2 ^ 31 ≤ mn) (hhi : mx < 2 ^ 31) (hw : mx - mn < 2 ^ 31) :
    normalizeToU8 port pid .int (.int x)
      = some (Int.toNat (Int.tdiv
          (((if x < mn then mn else if mx < x then mx else x) - mn) * 255) (mx - mn))) ∧
    Int.tdiv (((if x < mn then mn else if mx < x then mx else x) - mn) * 255) (mx - mn) ≤ 255 ∧
    0 ≤ Int.tdiv (((if x < mn then mn else if mx < x then mx else x) - mn) * 255) (mx - mn) := by
  have hg : ¬ (¬ port.hasModule ∨ port.module.parameterCount ≤ pid) := by
    push_neg
    exact ⟨hpass.1, hpass.2⟩
  have hval : mn ≤ (if x < mn then mn else if mx < x then mx else x) ∧
      (if x < mn then mn else if mx < x then mx else x) ≤ mx := by
    split_ifs <;> omega
  set val := (if x < mn then mn else if mx < x then mx else x) with hval_def
  have hwv : wrap32 (val - mn) = val - mn := by
    unfold wrap32
    omega
  have hwd : wrap32 (mx - mn) = mx - mn := by
    unfold wrap32
    omega
  have htd : Int.tdiv ((val - mn) * 255) (mx - mn) = ((val - mn) * 255) / (mx - mn) :=
    Int.tdiv_eq_ediv (by nlinarith [hval.1, hval.2]) (by omega)
  have hdivpos : (0 : Int) < mx - mn := by omega
  have hub : ((val - mn) * 255) / (mx - mn) ≤ 255 := by
    have hmono : ((val - mn) * 255) / (mx - mn) ≤ (255 * (mx - mn)) / (mx - mn) := by
      apply Int.ediv_le_ediv hdivpos
      nlinarith [hval.1, hval.2]
    rwa [Int.mul_ediv_cancel _ (by omega : mx - mn ≠ 0)] at hmono
  have hlb : 0 ≤ ((val - mn) * 255) / (mx - mn) :=
    Int.ediv_nonneg (by nlinarith [hval.1, hval.2]) (by omega)
  refine ⟨?_, by rw [htd]; exact hub, by rw [htd]; exact hlb⟩
  unfold normalizeToU8
  rw [if_neg hg, hmm]
  dsimp only
  rw [if_neg (by omega : ¬ mx ≤ mn), ← hval_def, hwv, hwd]
  rw [if_neg (by omega : ¬ mx - mn = 0)]
  rw [htd, Int.emod_eq_of_lt hlb (by omega)]

end PiControl
namespace PiControl

theorem normalizeToU8_float_ok (port : Port) (pid : Nat) (mn mx x : ℚ)
    (hmm : (port.module.parameters.getD pid defaultParameter).minMax = .floats mn mx)
    (hlt : mn < mx) :
    ∃ r, normalizeToU8 port pid .float (.float x) = some r ∧ r ≤ 255 := by
  by_cases hg : ¬ port.hasModule ∨ port.module.parameterCount ≤ pid
  · exact ⟨0, normalizeToU8_guard _ _ _ _ hg, by omega⟩
  · unfold normalizeToU8
    rw [if_neg hg, hmm]
    dsimp only
    rw [if_neg (not_le.mpr hlt)]
    have hval : mn ≤ (if x < mn then mn else if mx < x then mx else x) ∧
        (if x < mn then mn else if mx < x then mx else x) ≤ mx := by
      split_ifs <;> constructor <;> linarith
    have hden : 0 < f32sub mx mn := round32_pos _ (by linarith)
    rw [if_neg (ne_of_gt hden)]
    have hq := f32_norm_chain mn mx (if x < mn then mn else if mx < x then mx else x)
      hlt hval.1 hval.2
    rw [if_pos ⟨hq.1, hq.2⟩]
    refine ⟨_, rfl, ?_⟩
    have hfl : ⌊f32div (f32mul (f32sub (if x < mn then mn else if mx < x then mx else x) mn) 255)
        (f32sub mx mn)⌋ < 256 := by
      rw [Int.floor_lt]
      exact_mod_cast hq.2
    omega

/-- C10: `normalizeToU8` is total and division-free at the boundary.
(i)/(ii) For an Int32 or Float32 parameter whose declared `max ≤ min` the
function returns 0 on the branch *before* the division.  (iii) For a
well-formed Int32 range (any `int32_t` bounds) the division is defined
(nonzero divisor) and the returned byte is ≤ 255.  (iv) When the range
width also fits in `int32_t` (no wrap), the result is exactly the clamped
value scaled by `(val − min)·255/(max − min)`, which lies in `[0, 255]`.
(v) For a well-formed Float32 range the float division is defined, the
float→`uint8_t` cast is in range, and the returned byte is ≤ 255. -/
theorem normalizeToU8_total_and_bounded :
    (∀ (port : Port) (pid : Nat) (mn mx x : Int),
      (port.module.parameters.getD pid defaultParameter).minMax = .ints mn mx → mx ≤ mn →
      normalizeToU8 port pid .int (.int x) = some 0) ∧
    (∀ (port : Port) (pid : Nat) (mn mx x : ℚ),
      (port.module.parameters.getD pid defaultParameter).minMax = .floats mn mx → mx ≤ mn →
      normalizeToU8 port pid .float (.float x) = some 0) ∧
    (∀ (port : Port) (pid : Nat) (mn mx x : Int),
      (port.module.parameters.getD pid defaultParameter).minMax = .ints mn mx →
      mn < mx → -2 ^ 31 ≤ mn → mx < 2 ^ 31 →
      ∃ r, normalizeToU8 port pid .int (.int x) = some r ∧ r ≤ 255) ∧
    (∀ (port : Port) (pid : Nat) (mn mx x : Int),
      (port.module.parameters.getD pid defaultParameter).minMax = .ints mn mx →
      port.hasModule ∧ pid < port.module.parameterCount →
      mn < mx → -2 ^ 31 ≤ mn → mx < 2 ^ 31 → mx - mn < 2 ^ 31 →
      normalizeToU8 port pid .int (.int x)
        = some (Int.toNat (Int.tdiv
            (((if x < mn then mn else if mx < x then mx else x) - mn) * 255) (mx - mn))) ∧
      Int.tdiv (((if x < mn then mn else if mx < x then mx else x) - mn) * 255) (mx - mn) ≤ 255 ∧
      0 ≤ Int.tdiv (((if x < mn then mn else if mx < x then mx else x) - mn) * 255) (mx - mn)) ∧
    (∀ (port : Port) (pid : Nat) (mn mx x : ℚ),
      (port.module.parameters.getD pid defaultParameter).minMax = .floats mn mx → mn < mx →
      ∃ r, normalizeToU8 port pid .float (.float x) = some r ∧ r ≤ 255) :=
  ⟨normalizeToU8_int_degenerate, normalizeToU8_float_degenerate, normalizeToU8_int_ok,
   normalizeToU8_int_exact, normalizeToU8_float_ok⟩

/-- C10 witness: concrete Int32 parameter with range `[-100, 100]` at
input 50, and a degenerate Int32 range returning 0. -/
theorem normalizeToU8_total_and_bounded_witness :
    (({ row := 0, col := 0, hasModule := true,
        module := { capabilities := 0, parameterCount := 1,
                    parameters := [{ id := 0, dataType := .int, access := 3,
                                     value := .int 0, minMax := .ints (-100) 100 }] },
        orientation := 0, configured := true } :
          Port).module.parameters.getD 0 defaultParameter).minMax = .ints (-100) 100 ∧
    (-100 : Int) < 100 ∧
    (∃ r, normalizeToU8
      { row := 0, col := 0, hasModule := true,
        module := { capabilities := 0, parameterCount := 1,
                    parameters := [{ id := 0, dataType := .int, access := 3,
                                     value := .int 0, minMax := .ints (-100) 100 }] },
        orientation := 0, configured := true } 0 .int (.int 50) = some r ∧ r ≤ 255) :=
  ⟨by decide, by decide,
   normalizeToU8_total_and_bounded.2.2.1 _ 0 (-100) 100 50 (by decide)
     (by decide) (by decide) (by decide)⟩

end PiControl
namespace PiControl

theorem handleParamValue_out_of_range (port : Port) (st : ParamState) (pid : Nat)
    (cur : ModuleParameterValue) (now : Nat)
    (hg : port.hasModule = true) (hp : pid < port.module.parameterCount)
    (hr : isValueInRange (port.module.parameters.getD pid defaultParameter) cur = false) :
    handleParamValue port st pid cur now
      = (port, st, [.paramOutOfRange pid,
          .setParameter pid (port.module.parameters.getD pid defaultParameter).dataType
            (getResetValue (port.module.parameters.getD pid defaultParameter))]) := by
  unfold handleParamValue
  rw [if_neg (not_or.mpr ⟨by simp [hg], by omega⟩)]
  dsimp only
  rw [if_pos (by simp only [hr]; exact Bool.false_ne_true)]

theorem handleParamValue_equal (port : Port) (st : ParamState) (pid : Nat)
    (cur : ModuleParameterValue) (now : Nat)
    (hg : port.hasModule = true) (hp : pid < port.module.parameterCount)
    (hr : isValueInRange (port.module.parameters.getD pid defaultParameter) cur = true)
    (hv : st.lastValueValid = true)
    (he : valueEquals (port.module.parameters.getD pid defaultParameter).dataType
            cur st.lastValue = true) :
    handleParamValue port st pid cur now = (port, st, []) := by
  unfold handleParamValue
  rw [if_neg (not_or.mpr ⟨by simp [hg], by omega⟩)]
  dsimp only
  rw [if_neg (by simp only [hr]; simp), if_pos ⟨hv, he⟩]

theorem handleParamValue_send (port : Port) (st : ParamState) (pid : Nat)
    (cur : ModuleParameterValue) (now : Nat)
    (hg : port.hasModule = true) (hp : pid < port.module.parameterCount)
    (hr : isValueInRange (port.module.parameters.getD pid defaultParameter) cur = true)
    (hacc : ¬ (st.lastValueValid = true
      ∧ valueEquals (port.module.parameters.getD pid defaultParameter).dataType
          cur st.lastValue = true))
    (hth : PARAM_EVENT_THROTTLE_MS ≤ u32sub now st.lastEventTimeMs) :
    handleParamValue port st pid cur now
      = ({ port with module := { port.module with
            parameters := port.module.parameters.set pid
              { port.module.parameters.getD pid defaultParameter with value := cur } } },
         { st with lastValue := cur, lastValueValid := true,
                   lastChangeTimeMs := now, lastEventTimeMs := now,
                   hasPendingEvent := false },
         [.applyMapping pid, .paramChanged pid cur]) := by
  unfold handleParamValue
  rw [if_neg (not_or.mpr ⟨by simp [hg], by omega⟩)]
  dsimp only
  rw [if_neg (by simp only [hr]; simp), if_neg hacc, if_pos hth]

theorem handleParamValue_suppress (port : Port) (st : ParamState) (pid : Nat)
    (cur : ModuleParameterValue) (now : Nat)
    (hg : port.hasModule = true) (hp : pid < port.module.parameterCount)
    (hr : isValueInRange (port.module.parameters.getD pid defaultParameter) cur = true)
    (hacc : ¬ (st.lastValueValid = true
      ∧ valueEquals (port.module.parameters.getD pid defaultParameter).dataType
          cur st.lastValue = true))
    (hth : u32sub now st.lastEventTimeMs < PARAM_EVENT_THROTTLE_MS) :
    handleParamValue port st pid cur now
      = ({ port with module := { port.module with
            parameters := port.module.parameters.set pid
              { port.module.parameters.getD pid defaultParameter with value := cur } } },
         { st with lastValue := cur, lastValueValid := true,
                   lastChangeTimeMs := now, hasPendingEvent := true,
                   pendingEventValue := cur,
                   pendingEventDataType :=
                     (port.module.parameters.getD pid defaultParameter).dataType },
         [.applyMapping pid]) := by
  unfold handleParamValue
  rw [if_neg (not_or.mpr ⟨by simp [hg], by omega⟩)]
  dsimp only
  rw [if_neg (by simp only [hr]; simp), if_neg hacc, if_neg (by omega)]

end PiControl
namespace PiControl

/-- C3: an OK GetParameter response whose decoded Int32 (or Float32)
value lies outside the declared `[min, max]` produces exactly one
`param_out_of_range` event followed by exactly one corrective
`SetParameter` carrying the declared minimum, no `param_changed` event
and no mapping application, and leaves both the cached parameter value
(the `Port`) and the throttle/cache state unchanged. -/
theorem out_of_range_response_corrects_to_min :
    (∀ (port : Port) (st : ParamState) (pid : Nat) (mn mx v : Int) (now : Nat),
      port.hasModule = true → pid < port.module.parameterCount →
      (port.module.parameters.getD pid defaultParameter).dataType = .int →
      (port.module.parameters.getD pid defaultParameter).minMax = .ints mn mx →
      (v < mn ∨ mx < v) →
      handleParamValue port st pid (.int v) now
        = (port, st, [.paramOutOfRange pid, .setParameter pid .int (.int mn)])) ∧
    (∀ (port : Port) (st : ParamState) (pid : Nat) (mn mx v : ℚ) (now : Nat),
      port.hasModule = true → pid < port.module.parameterCount →
      (port.module.parameters.getD pid defaultParameter).dataType = .float →
      (port.module.parameters.getD pid defaultParameter).minMax = .floats mn mx →
      (v < mn ∨ mx < v) →
      handleParamValue port st pid (.float v) now
        = (port, st, [.paramOutOfRange pid, .setParameter pid .float (.float mn)])) := by
  constructor
  · intro port st pid mn mx v now hg hp hdt hmm hout
    have hr : isValueInRange (port.module.parameters.getD pid defaultParameter) (.int v)
        = false := by
      unfold isValueInRange
      rw [hdt, hmm]
      simp only [decide_eq_false_iff_not]
      omega
    have := handleParamValue_out_of_range port st pid (.int v) now hg hp hr
    rw [this, hdt]
    unfold getResetValue
    rw [hdt, hmm]
  · intro port st pid mn mx v now hg hp hdt hmm hout
    have hr : isValueInRange (port.module.parameters.getD pid defaultParameter) (.float v)
        = false := by
      unfold isValueInRange
      rw [hdt, hmm]
      simp only [decide_eq_false_iff_not, not_and_or, not_le]
      rcases hout with h | h
      · exact Or.inl h
      · exact Or.inr h
    have := handleParamValue_out_of_range port st pid (.float v) now hg hp hr
    rw [this, hdt]
    unfold getResetValue
    rw [hdt, hmm]

/-- C3 witness: concrete port with one Int32 parameter of range
`[0, 10]` receiving the out-of-range value 50. -/
theorem out_of_range_response_corrects_to_min_witness :
    handleParamValue
      { row := 0, col := 0, hasModule := true,
        module := { capabilities := 0, parameterCount := 1,
                    parameters := [{ id := 0, dataType := .int, access := 3,
                                     value := .int 0, minMax := .ints 0 10 }] },
        orientation := 0, configured := true }
      { lastValueValid := false, lastValue := .int 0, lastEventTimeMs := 0,
        lastChangeTimeMs := 0, hasPendingEvent := false, pendingEventValue := .int 0,
        pendingEventDataType := .int }
      0 (.int 50) 1000
      = ({ row := 0, col := 0, hasModule := true,
           module := { capabilities := 0, parameterCount := 1,
                       parameters := [{ id := 0, dataType := .int, access := 3,
                                        value := .int 0, minMax := .ints 0 10 }] },
           orientation := 0, configured := true },
         { lastValueValid := false, lastValue := .int 0, lastEventTimeMs := 0,
           lastChangeTimeMs := 0, hasPendingEvent := false, pendingEventValue := .int 0,
           pendingEventDataType := .int },
         [.paramOutOfRange 0, .setParameter 0 .int (.int 0)]) :=
  out_of_range_response_corrects_to_min.1 _ _ 0 0 10 50 1000 (by decide) (by decide)
    (by decide) (by decide) (by decide)

end PiControl
namespace PiControl

theorem propsRetryTick_hasModule (st : PropsState) (now : Nat) :
    (propsRetryTick st now).1.hasModule = st.hasModule := by
  unfold propsRetryTick
  split
  · split <;> rfl
  · split <;> rfl

theorem propsRetryTick_send (st : PropsState) (now : Nat)
    (h1 : st.hasModule = false) (h2 : st.propsRequestAttempts < PROPS_MAX_ATTEMPTS)
    (h3 : st.propsRequestAttempts = 0
      ∨ PROPS_RETRY_INTERVAL_MS ≤ u32sub now st.lastPropsRequestMs) :
    propsRetryTick st now =
      ({ st with propsRequested := true,
                 connectionTime := if st.propsRequestAttempts = 0 then now
                   else st.connectionTime,
                 propsRequestAttempts := st.propsRequestAttempts + 1,
                 lastPropsRequestMs := now }, [now]) := by
  unfold propsRetryTick
  rw [if_pos ⟨by simp [h1], h2⟩, if_pos h3]

theorem propsRetryTick_wait (st : PropsState) (now : Nat)
    (h1 : st.hasModule = false) (h2 : st.propsRequestAttempts < PROPS_MAX_ATTEMPTS)
    (h3 : ¬ (st.propsRequestAttempts = 0
      ∨ PROPS_RETRY_INTERVAL_MS ≤ u32sub now st.lastPropsRequestMs)) :
    propsRetryTick st now = (st, []) := by
  unfold propsRetryTick
  rw [if_pos ⟨by simp [h1], h2⟩, if_neg h3]

theorem propsRetryTick_spent (st : PropsState) (now : Nat)
    (h1 : st.hasModule = false) (h2 : ¬ st.propsRequestAttempts < PROPS_MAX_ATTEMPTS) :
    propsRetryTick st now = (st, []) := by
  unfold propsRetryTick
  rw [if_neg (by intro h; exact h2 h.2), if_neg (by simp [h1])]

theorem propsRetryTick_done (st : PropsState) (now : Nat) (h1 : st.hasModule = true) :
    propsRetryTick st now =
      ({ st with propsRequested := true, propsRequestAttempts := PROPS_MAX_ATTEMPTS },
       []) := by
  unfold propsRetryTick
  rw [if_neg (by simp [h1]), if_pos (by simp [h1])]

theorem handlePropsResponse_attempts (st : PropsState) (ok ir : Bool) (len : Nat) :
    (handlePropsResponse st ok ir len).propsRequestAttempts = st.propsRequestAttempts := by
  unfold handlePropsResponse
  split <;> rfl

theorem runProps_hasModule_false (steps : List PropsStep) :
    ∀ st : PropsState, noValidPropsResponse steps = true → st.hasModule = false →
      (runProps st steps).1.hasModule = false := by
  induction steps with
  | nil => intro st _ h; exact h
  | cons s rest ih =>
    intro st hnv h
    cases s with
    | tick now =>
      unfold runProps
      unfold noValidPropsResponse at hnv
      exact ih _ hnv (by rw [propsRetryTick_hasModule]; exact h)
    | response ok ir len =>
      unfold runProps
      unfold noValidPropsResponse at hnv
      simp only [Bool.and_eq_true, Bool.not_eq_true'] at hnv
      refine ih _ hnv.2 ?_
      unfold handlePropsResponse
      rw [if_neg (by simp [hnv.1])]
      exact h

theorem runProps_sends_le (steps : List PropsStep) :
    ∀ st : PropsState,
      (runProps st steps).2.length ≤ PROPS_MAX_ATTEMPTS - st.propsRequestAttempts := by
  induction steps with
  | nil => intro st; simp [runProps]
  | cons s rest ih =>
    intro st
    cases s with
    | tick now =>
      unfold runProps propsRetryTick
      split
      · split
        · have := ih
            { st with propsRequested := true,
                      connectionTime := if st.propsRequestAttempts = 0 then now
                        else st.connectionTime,
                      propsRequestAttempts := st.propsRequestAttempts + 1,
                      lastPropsRequestMs := now }
          simp only [List.length_append, List.length_cons, List.length_nil]
          simp only [PROPS_MAX_ATTEMPTS] at *
          omega
        · have := ih st
          simpa using this
      · split
        · have := ih
            { st with propsRequested := true,
                      propsRequestAttempts := PROPS_MAX_ATTEMPTS }
          simp only [List.length_append, List.length_nil]
          simp only [PROPS_MAX_ATTEMPTS] at *
          omega
        · have := ih st
          simpa using this
    | response ok ir len =>
      unfold runProps
      have := ih (handlePropsResponse st ok ir len)
      rw [handlePropsResponse_attempts] at this
      exact this

theorem runProps_spacedFrom (steps : List PropsStep) :
    ∀ st : PropsState, st.propsRequestAttempts ≠ 0 →
      spacedFrom st.lastPropsRequestMs (runProps st steps).2 = true := by
  induction steps with
  | nil => intro st _; rfl
  | cons s rest ih =>
    intro st ha
    cases s with
    | tick now =>
      unfold runProps
      by_cases h1 : st.hasModule = true
      · rw [propsRetryTick_done st now h1]
        dsimp only
        have hx := ih
          { st with propsRequested := true, propsRequestAttempts := PROPS_MAX_ATTEMPTS }
          (by simp [PROPS_MAX_ATTEMPTS])
        simpa using hx
      · replace h1 : st.hasModule = false := by simp at h1; exact h1
        by_cases h2 : st.propsRequestAttempts < PROPS_MAX_ATTEMPTS
        · by_cases h3 : st.propsRequestAttempts = 0
              ∨ PROPS_RETRY_INTERVAL_MS ≤ u32sub now st.lastPropsRequestMs
          · rw [propsRetryTick_send st now h1 h2 h3]
            dsimp only
            have hsp : PROPS_RETRY_INTERVAL_MS ≤ u32sub now st.lastPropsRequestMs := by
              rcases h3 with h3 | h3
              · exact absurd h3 ha
              · exact h3
            simp only [List.cons_append, List.nil_append]
            unfold spacedFrom
            simp only [Bool.and_eq_true, decide_eq_true_eq]
            have hx := ih
              { st with propsRequested := true,
                        connectionTime := if st.propsRequestAttempts = 0 then now
                          else st.connectionTime,
                        propsRequestAttempts := st.propsRequestAttempts + 1,
                        lastPropsRequestMs := now } (by simp)
            exact ⟨hsp, hx⟩
          · rw [propsRetryTick_wait st now h1 h2 h3]
            dsimp only
            exact ih st ha
        · rw [propsRetryTick_spent st now h1 h2]
          dsimp only
          exact ih st ha
    | response ok ir len =>
      unfold runProps
      have h1 : (handlePropsResponse st ok ir len).propsRequestAttempts ≠ 0 := by
        rw [handlePropsResponse_attempts]; exact ha
      have h2 : (handlePropsResponse st ok ir len).lastPropsRequestMs
          = st.lastPropsRequestMs := by
        unfold handlePropsResponse; split <;> rfl
      have := ih (handlePropsResponse st ok ir len) h1
      rw [h2] at this
      exact this

theorem spacedFrom_chainSpaced (l : List Nat) :
    ∀ t : Nat, spacedFrom t l = true → chainSpaced (t :: l) = true := by
  induction l with
  | nil => intro t _; rfl
  | cons t2 r ih =>
    intro t h
    unfold spacedFrom at h
    simp only [Bool.and_eq_true, decide_eq_true_eq] at h
    unfold chainSpaced
    simp only [Bool.and_eq_true, decide_eq_true_eq]
    exact ⟨h.1, ih t2 h.2⟩

theorem runProps_chainSpaced (steps : List PropsStep) :
    ∀ st : PropsState, chainSpaced (runProps st steps).2 = true := by
  induction steps with
  | nil => intro st; rfl
  | cons s rest ih =>
    intro st
    cases s with
    | tick now =>
      unfold runProps
      by_cases h1 : st.hasModule = true
      · rw [propsRetryTick_done st now h1]
        dsimp only
        exact ih _
      · replace h1 : st.hasModule = false := by simp at h1; exact h1
        by_cases h2 : st.propsRequestAttempts < PROPS_MAX_ATTEMPTS
        · by_cases h3 : st.propsRequestAttempts = 0
              ∨ PROPS_RETRY_INTERVAL_MS ≤ u32sub now st.lastPropsRequestMs
          · rw [propsRetryTick_send st now h1 h2 h3]
            dsimp only
            simp only [List.cons_append, List.nil_append]
            have hx := runProps_spacedFrom rest
              { st with propsRequested := true,
                        connectionTime := if st.propsRequestAttempts = 0 then now
                          else st.connectionTime,
                        propsRequestAttempts := st.propsRequestAttempts + 1,
                        lastPropsRequestMs := now } (by simp)
            exact spacedFrom_chainSpaced _ now hx
          · rw [propsRetryTick_wait st now h1 h2 h3]
            dsimp only
            exact ih st
        · rw [propsRetryTick_spent st now h1 h2]
          dsimp only
          exact ih st
    | response ok ir len => exact ih (handlePropsResponse st ok ir len)

end PiControl
namespace PiControl

/-- C5: for a configured port whose module never sends a valid
GetProperties response, (i) the port never becomes Ready — `hasModule`
stays false over any interleaving of `loop1` passes and invalid
responses; (ii) starting from `propsRequestAttempts = 0` at most
`PROPS_MAX_ATTEMPTS` (10) `sendGetProperties` calls are ever made, over
any event sequence; (iii) consecutive `sendGetProperties` calls are
always at least `PROPS_RETRY_INTERVAL_MS` (50 ms) apart in wrapping
`uint32_t` time. -/
theorem getproperties_retry_bounded :
    (∀ (steps : List PropsStep) (st : PropsState),
      noValidPropsResponse steps = true → st.hasModule = false →
      (runProps st steps).1.hasModule = false) ∧
    (∀ (steps : List PropsStep) (st : PropsState), st.propsRequestAttempts = 0 →
      (runProps st steps).2.length ≤ PROPS_MAX_ATTEMPTS) ∧
    (∀ (steps : List PropsStep) (st : PropsState),
      chainSpaced (runProps st steps).2 = true) := by
  refine ⟨fun steps st h1 h2 => runProps_hasModule_false steps st h1 h2,
          fun steps st h => ?_,
          fun steps st => runProps_chainSpaced steps st⟩
  have := runProps_sends_le steps st
  rw [h] at this
  simpa using this

/-- C5 witness: four `loop1` passes and one invalid response for a
fresh port; the module never answers validly. -/
theorem getproperties_retry_bounded_witness :
    (runProps { hasModule := false, propsRequestAttempts := 0, lastPropsRequestMs := 0,
                propsRequested := false, connectionTime := 0 }
       [.tick 5, .response true false 200, .tick 10, .tick 60]).1.hasModule = false ∧
    (runProps { hasModule := false, propsRequestAttempts := 0, lastPropsRequestMs := 0,
                propsRequested := false, connectionTime := 0 }
       [.tick 5, .response true false 200, .tick 10, .tick 60]).2.length
      ≤ PROPS_MAX_ATTEMPTS ∧
    chainSpaced (runProps { hasModule := false, propsRequestAttempts := 0,
                            lastPropsRequestMs := 0, propsRequested := false,
                            connectionTime := 0 }
       [.tick 5, .response true false 200, .tick 10, .tick 60]).2 = true :=
  ⟨getproperties_retry_bounded.1 _ _ (by decide) (by decide),
   getproperties_retry_bounded.2.1 _ _ (by decide),
   getproperties_retry_bounded.2.2 _ _⟩

end PiControl
namespace PiControl

theorem isValueInRange_congr (p q : ModuleParameter) (v : ModuleParameterValue)
    (h1 : p.dataType = q.dataType) (h2 : p.minMax = q.minMax) :
    isValueInRange p v = isValueInRange q v := by
  unfold isValueInRange
  rw [h1, h2]

theorem getD_set_value (l : List ModuleParameter) (pid : Nat) (cur : ModuleParameterValue) :
    (((l.set pid { l.getD pid defaultParameter with value := cur }).getD pid
        defaultParameter).dataType = (l.getD pid defaultParameter).dataType)
    ∧ (((l.set pid { l.getD pid defaultParameter with value := cur }).getD pid
        defaultParameter).minMax = (l.getD pid defaultParameter).minMax) := by
  by_cases h : pid < l.length
  · have : (l.set pid { l.getD pid defaultParameter with value := cur }).getD pid
        defaultParameter = { l.getD pid defaultParameter with value := cur } := by
      simp [List.getD_eq_getElem?_getD, List.getElem?_set_self', h]
    rw [this]
    exact ⟨rfl, rfl⟩
  · rw [List.set_eq_of_length_le (by omega)]
    exact ⟨rfl, rfl⟩

theorem runThrottle_append (pid : Nat) (l1 l2 : List ThrottleStep) :
    ∀ s : Port × ParamState,
      runThrottle pid s (l1 ++ l2)
        = ((runThrottle pid (runThrottle pid s l1).1 l2).1,
           (runThrottle pid s l1).2 ++ (runThrottle pid (runThrottle pid s l1).1 l2).2) := by
  induction l1 with
  | nil => intro s; simp [runThrottle]
  | cons a l1 ih =>
    intro s
    obtain ⟨port, st⟩ := s
    cases a with
    | change now v =>
      simp only [List.cons_append, runThrottle, List.append_eq, ih, List.append_assoc]
    | sweep now =>
      simp only [List.cons_append, runThrottle, List.append_eq, ih, List.append_assoc]

theorem burst_tail_run (port : Port) (pid : Nat) (e : Nat) :
    ∀ (rest : List (Nat × ModuleParameterValue)) (port' : Port) (st : ParamState),
      port'.hasModule = true →
      port'.module.parameterCount = port.module.parameterCount →
      (port'.module.parameters.getD pid defaultParameter).dataType
        = (port.module.parameters.getD pid defaultParameter).dataType →
      (port'.module.parameters.getD pid defaultParameter).minMax
        = (port.module.parameters.getD pid defaultParameter).minMax →
      pid < port.module.parameterCount →
      st.lastValueValid = true → st.lastEventTimeMs = e →
      burstOk port pid e st.lastValue rest = true →
      ((runThrottle pid (port', st)
          (rest.map (fun q => ThrottleStep.change q.1 q.2))).2.filter isParamChanged = [])
      ∧ ((runThrottle pid (port', st)
          (rest.map (fun q => ThrottleStep.change q.1 q.2))).1.1.hasModule = true)
      ∧ ((runThrottle pid (port', st)
          (rest.map (fun q => ThrottleStep.change q.1 q.2))).1.1.module.parameterCount
            = port.module.parameterCount)
      ∧ ((runThrottle pid (port', st)
          (rest.map (fun q => ThrottleStep.change q.1 q.2))).1.2.lastValueValid = true)
      ∧ ((runThrottle pid (port', st)
          (rest.map (fun q => ThrottleStep.change q.1 q.2))).1.2.lastEventTimeMs = e)
      ∧ ((runThrottle pid (port', st)
          (rest.map (fun q => ThrottleStep.change q.1 q.2))).1.2.lastChangeTimeMs
            = (rest.map Prod.fst).getLastD st.lastChangeTimeMs)
      ∧ ((runThrottle pid (port', st)
          (rest.map (fun q => ThrottleStep.change q.1 q.2))).1.2.hasPendingEvent
            = (st.hasPendingEvent || !rest.isEmpty))
      ∧ ((runThrottle pid (port', st)
          (rest.map (fun q => ThrottleStep.change q.1 q.2))).1.2.pendingEventValue
            = (if rest.isEmpty then st.pendingEventValue
               else (rest.map Prod.snd).getLastD st.lastValue)) := by
  intro rest
  induction rest with
  | nil =>
    intro port' st h1 h2 _ _ _ h6 h7 _
    refine ⟨rfl, h1, h2, h6, h7, rfl, ?_, ?_⟩
    · have hb : (st.hasPendingEvent
          || ! List.isEmpty ([] : List (Nat × ModuleParameterValue))) = st.hasPendingEvent := by
        simp
      rw [hb]
      rfl
    · rfl
  | cons q rest ih =>
    obtain ⟨t, v⟩ := q
    intro port' st h1 h2 h3 h4 h5 h6 h7 h8
    unfold burstOk at h8
    simp only [Bool.and_eq_true, Bool.not_eq_true', decide_eq_true_eq] at h8
    obtain ⟨⟨⟨hr, hne⟩, htin⟩, hb⟩ := h8
    have hr' : isValueInRange (port'.module.parameters.getD pid defaultParameter) v = true := by
      rw [isValueInRange_congr _ _ v h3 h4]; exact hr
    have hacc : ¬ (st.lastValueValid = true
        ∧ valueEquals (port'.module.parameters.getD pid defaultParameter).dataType v
            st.lastValue = true) := by
      rw [h3]
      intro hk
      rw [hk.2] at hne
      exact Bool.noConfusion hne
    have hstep := handleParamValue_suppress port' st pid v t h1 (by omega) hr' hacc
      (by rw [h7]; exact htin)
    simp only [List.map_cons, runThrottle, hstep]
    have hih := ih
      { port' with module := { port'.module with
          parameters := port'.module.parameters.set pid
            { port'.module.parameters.getD pid defaultParameter with value := v } } }
      { st with lastValue := v, lastValueValid := true,
                lastChangeTimeMs := t, hasPendingEvent := true,
                pendingEventValue := v,
                pendingEventDataType :=
                  (port'.module.parameters.getD pid defaultParameter).dataType }
      h1 h2
      (by
        dsimp only
        rw [(getD_set_value port'.module.parameters pid v).1]
        exact h3)
      (by
        dsimp only
        rw [(getD_set_value port'.module.parameters pid v).2]
        exact h4)
      h5 rfl h7 hb
    obtain ⟨c1, c2, c3, c4, c5, c6, c7, c8⟩ := hih
    refine ⟨?_, c2, c3, c4, c5, ?_, ?_, ?_⟩
    · simp only [List.filter_append, c1, List.filter_cons, List.filter_nil]
      rfl
    · rw [c6]
      dsimp only
      rw [List.getLastD_cons]
    · rw [c7]
      dsimp only
      simp
    · rw [c8]
      dsimp only
      simp only [show ((t, v) :: rest).isEmpty = false from rfl, Bool.false_eq_true,
        if_false, List.map_cons, List.getLastD_cons]
      by_cases hre : rest.isEmpty = true
      · rw [if_pos hre]
        rw [List.isEmpty_iff] at hre
        subst hre
        rfl
      · rw [if_neg hre]

end PiControl
namespace PiControl

theorem runThrottle_sweep_one (pid : Nat) (s : Port × ParamState) (now : Nat) :
    runThrottle pid s [.sweep now]
      = ((s.1, (sweepPending s.1 pid s.2 now).1), (sweepPending s.1 pid s.2 now).2) := by
  obtain ⟨port, st⟩ := s
  simp [runThrottle]

theorem sweepPending_fire (port : Port) (pid : Nat) (st : ParamState) (now : Nat)
    (h : port.hasModule ∧ pid < port.module.parameterCount ∧ pid < 32
      ∧ st.hasPendingEvent ∧ PARAM_EVENT_THROTTLE_MS ≤ u32sub now st.lastChangeTimeMs) :
    sweepPending port pid st now
      = ({ st with hasPendingEvent := false, lastEventTimeMs := now },
         [.paramChanged pid st.pendingEventValue]) := by
  unfold sweepPending
  rw [if_pos h]

theorem runThrottle_change_cons (pid : Nat) (port : Port) (st : ParamState) (now : Nat)
    (v : ModuleParameterValue) (L : List ThrottleStep) :
    runThrottle pid (port, st) (.change now v :: L)
      = ((runThrottle pid ((handleParamValue port st pid v now).1,
            (handleParamValue port st pid v now).2.1) L).1,
         (handleParamValue port st pid v now).2.2
           ++ (runThrottle pid ((handleParamValue port st pid v now).1,
                (handleParamValue port st pid v now).2.1) L).2) := rfl

/-- C6 (amended): for a burst of `N ≥ 2` accepted value changes to the
same parameter within the 100 ms throttle window (first change at `t0`
accepted and immediately notifiable, every later change in range,
distinct from its predecessor and within 100 ms of `t0`), followed by a
sweep pass at least 100 ms after the last change, the host sees exactly
two `param_changed` notifications: one immediately carrying the first
value, and one final notification carrying the last value.  (For `N = 1`
no final notification fires — see the counterexample — so the original
"exactly one immediate and exactly one final" holds only for `N ≥ 2`.) -/
theorem burst_throttle_two_notifications
    (port : Port) (st0 : ParamState) (pid t0 : Nat) (v0 : ModuleParameterValue)
    (rest : List (Nat × ModuleParameterValue)) (T : Nat)
    (hmod : port.hasModule = true) (hpid : pid < port.module.parameterCount)
    (hpid32 : pid < 32)
    (hr0 : isValueInRange (port.module.parameters.getD pid defaultParameter) v0 = true)
    (hacc0 : ¬ (st0.lastValueValid = true
      ∧ valueEquals (port.module.parameters.getD pid defaultParameter).dataType v0
          st0.lastValue = true))
    (himm : PARAM_EVENT_THROTTLE_MS ≤ u32sub t0 st0.lastEventTimeMs)
    (hburst : burstOk port pid t0 v0 rest = true)
    (hrne : rest.isEmpty = false)
    (hsw : PARAM_EVENT_THROTTLE_MS ≤ u32sub T ((rest.map Prod.fst).getLastD t0)) :
    (runThrottle pid (port, st0)
        (.change t0 v0 :: (rest.map (fun q => ThrottleStep.change q.1 q.2)
          ++ [.sweep T]))).2.filter isParamChanged
      = [.paramChanged pid v0, .paramChanged pid ((rest.map Prod.snd).getLastD v0)] := by
  have hstep := handleParamValue_send port st0 pid v0 t0 hmod hpid hr0 hacc0 himm
  rw [runThrottle_change_cons, hstep]
  dsimp only
  rw [runThrottle_append]
  have hmid := burst_tail_run port pid t0 rest
    { port with module := { port.module with
        parameters := port.module.parameters.set pid
          { port.module.parameters.getD pid defaultParameter with value := v0 } } }
    { st0 with lastValue := v0, lastValueValid := true,
               lastChangeTimeMs := t0, lastEventTimeMs := t0,
               hasPendingEvent := false }
    hmod rfl
    (by
      dsimp only
      exact (getD_set_value port.module.parameters pid v0).1)
    (by
      dsimp only
      exact (getD_set_value port.module.parameters pid v0).2)
    hpid rfl rfl hburst
  obtain ⟨c1, c2, c3, c4, c5, c6, c7, c8⟩ := hmid
  dsimp only at c6 c7 c8
  rw [hrne] at c7 c8
  simp only [Bool.or_true, Bool.not_false] at c7
  simp only [Bool.false_eq_true, if_false] at c8
  set M := runThrottle pid
    ({ port with module := { port.module with
        parameters := port.module.parameters.set pid
          { port.module.parameters.getD pid defaultParameter with value := v0 } } },
     { st0 with lastValue := v0, lastValueValid := true,
                lastChangeTimeMs := t0, lastEventTimeMs := t0,
                hasPendingEvent := false })
    (rest.map (fun q => ThrottleStep.change q.1 q.2)) with hM
  rw [runThrottle_sweep_one]
  rw [sweepPending_fire M.1.1 pid M.1.2 T
    ⟨c2, by rw [c3]; exact hpid, hpid32, c7, by rw [c6]; exact hsw⟩]
  dsimp only
  rw [c8]
  simp only [List.filter_append, c1, List.filter_cons, List.filter_nil]
  rfl

/-- C6 amended-claim witness: a two-change burst (values 5 then 7 at
1000 ms and 1050 ms) and a sweep at 1200 ms. -/
theorem burst_throttle_two_notifications_witness :
    (runThrottle 0
        ({ row := 0, col := 0, hasModule := true,
           module := { capabilities := 0, parameterCount := 1,
                       parameters := [{ id := 0, dataType := .int, access := 3,
                                        value := .int 0, minMax := .ints (-100) 100 }] },
           orientation := 0, configured := true },
         { lastValueValid := false, lastValue := .int 0, lastEventTimeMs := 0,
           lastChangeTimeMs := 0, hasPendingEvent := false, pendingEventValue := .int 0,
           pendingEventDataType := .int })
        (.change 1000 (.int 5) :: ([(1050, ModuleParameterValue.int 7)].map
            (fun q => ThrottleStep.change q.1 q.2)
          ++ [.sweep 1200]))).2.filter isParamChanged
      = [.paramChanged 0 (.int 5), .paramChanged 0 (.int 7)] := by
  have := burst_throttle_two_notifications
    { row := 0, col := 0, hasModule := true,
      module := { capabilities := 0, parameterCount := 1,
                  parameters := [{ id := 0, dataType := .int, access := 3,
                                   value := .int 0, minMax := .ints (-100) 100 }] },
      orientation := 0, configured := true }
    { lastValueValid := false, lastValue := .int 0, lastEventTimeMs := 0,
      lastChangeTimeMs := 0, hasPendingEvent := false, pendingEventValue := .int 0,
      pendingEventDataType := .int }
    0 1000 (.int 5) [(1050, ModuleParameterValue.int 7)] 1200
    (by decide) (by decide) (by decide) (by decide) (by decide) (by decide) (by decide)
    (by decide) (by decide)
  exact this

/-- C6 counterexample: a burst of `N = 1` change produces exactly one
`param_changed` notification in total — the immediate one — and no final
notification ever fires (later sweep passes emit nothing), contradicting
"exactly one final notification … is emitted once 100 ms have elapsed
since the last change" for arbitrary `N`. -/
theorem single_change_burst_no_final_notification :
    (runThrottle 0
        ({ row := 0, col := 0, hasModule := true,
           module := { capabilities := 0, parameterCount := 1,
                       parameters := [{ id := 0, dataType := .int, access := 3,
                                        value := .int 0, minMax := .ints (-100) 100 }] },
           orientation := 0, configured := true },
         { lastValueValid := false, lastValue := .int 0, lastEventTimeMs := 0,
           lastChangeTimeMs := 0, hasPendingEvent := false, pendingEventValue := .int 0,
           pendingEventDataType := .int })
        [.change 1000 (.int 5), .sweep 1200, .sweep 2000]).2.filter isParamChanged
      = [.paramChanged 0 (.int 5)] := by decide

end PiControl
namespace PiControl

theorem take_set_dropLast (l : List Mapping) (i : Nat) (a : Mapping) (h : i < l.length) :
    ((l.set i a).dropLast).take i = l.take i := by
  apply List.ext_getElem
  · simp [List.length_dropLast, List.length_set]
    omega
  · intro j h1 h2
    simp only [List.getElem_take, List.getElem_dropLast]
    rw [List.getElem_set_ne]
    · simp [List.length_take, List.length_dropLast, List.length_set] at h1
      omega

theorem clearMappingsLoop_not_mem (r c : Nat) :
    ∀ (fuel : Nat), ∀ (i : Nat) (ms : List Mapping), ms.length - i ≤ fuel →
      (∀ m ∈ ms.take i, ¬ (m.row = r ∧ m.col = c)) →
      ∀ m ∈ clearMappingsLoop r c i fuel ms, ¬ (m.row = r ∧ m.col = c) := by
  intro fuel
  induction fuel with
  | zero =>
    intro i ms hf hpre m hm
    unfold clearMappingsLoop at hm
    rw [List.take_of_length_le (by omega)] at hpre
    exact hpre m hm
  | succ fuel ih =>
    intro i ms hf hpre m hm
    unfold clearMappingsLoop at hm
    by_cases hi : i < ms.length
    · rw [if_pos hi] at hm
      by_cases hmt : (ms.getD i mappingZero).row = r ∧ (ms.getD i mappingZero).col = c
      · rw [if_pos hmt] at hm
        refine ih i _ ?_ ?_ m hm
        · simp only [List.length_dropLast, List.length_set]
          omega
        · rw [take_set_dropLast _ _ _ hi]
          exact hpre
      · rw [if_neg hmt] at hm
        refine ih (i + 1) ms (by omega) ?_ m hm
        intro x hx
        rw [List.take_succ] at hx
        rcases List.mem_append.mp hx with h | h
        · exact hpre x h
        · rw [List.getElem?_eq_getElem hi] at h
          simp only [Option.toList_some, List.mem_singleton] at h
          subst h
          intro hco
          apply hmt
          have hD : ms.getD i mappingZero = ms[i] := by
            simp [List.getD_eq_getElem?_getD, List.getElem?_eq_getElem hi]
          rw [hD]
          exact hco
    · rw [if_neg hi] at hm
      rw [List.take_of_length_le (by omega)] at hpre
      exact hpre m hm

theorem clearMappingsLoop_subset (r c : Nat) :
    ∀ (fuel : Nat), ∀ (i : Nat) (ms : List Mapping),
      ∀ m ∈ clearMappingsLoop r c i fuel ms, m ∈ ms := by
  intro fuel
  induction fuel with
  | zero =>
    intro i ms m hm
    unfold clearMappingsLoop at hm
    exact hm
  | succ fuel ih =>
    intro i ms m hm
    unfold clearMappingsLoop at hm
    by_cases hi : i < ms.length
    · rw [if_pos hi] at hm
      by_cases hmt : (ms.getD i mappingZero).row = r ∧ (ms.getD i mappingZero).col = c
      · rw [if_pos hmt] at hm
        have h1 := ih _ _ m hm
        have h2 := List.dropLast_subset _ h1
        rcases List.mem_or_eq_of_mem_set h2 with h | h
        · exact h
        · subst h
          have hlen : 0 < ms.length := by omega
          have : ms.getD (ms.length - 1) mappingZero = ms[ms.length - 1] := by
            simp [List.getD_eq_getElem?_getD, List.getElem?_eq_getElem (by omega : ms.length - 1 < ms.length)]
          rw [this]
          exact List.getElem_mem _
      · rw [if_neg hmt] at hm
        exact ih _ _ m hm
    · rw [if_neg hi] at hm
      exact hm

theorem clearMappingsLoop_mem_of (r c : Nat) :
    ∀ (fuel : Nat), ∀ (i : Nat) (ms : List Mapping), ms.length - i ≤ fuel →
      ∀ m ∈ ms, ¬ (m.row = r ∧ m.col = c) → m ∈ clearMappingsLoop r c i fuel ms := by
  intro fuel
  induction fuel with
  | zero =>
    intro i ms hf m hm hnm
    unfold clearMappingsLoop
    exact hm
  | succ fuel ih =>
    intro i ms hf m hm hnm
    unfold clearMappingsLoop
    by_cases hi : i < ms.length
    · rw [if_pos hi]
      by_cases hmt : (ms.getD i mappingZero).row = r ∧ (ms.getD i mappingZero).col = c
      · rw [if_pos hmt]
        have hD : ms.getD i mappingZero = ms[i] := by
          simp [List.getD_eq_getElem?_getD, List.getElem?_eq_getElem hi]
        rw [hD] at hmt
        obtain ⟨j, hj, hjm⟩ := List.mem_iff_getElem.mp hm
        have hji : j ≠ i := by
          intro hE
          subst hE
          rw [hjm] at hmt
          exact hnm hmt
        refine ih i _ ?_ m ?_ hnm
        · simp only [List.length_dropLast, List.length_set]
          omega
        · by_cases hjl : j < ms.length - 1
          · have hlen : j < ((ms.set i (ms.getD (ms.length - 1) mappingZero)).dropLast).length := by
              simp only [List.length_dropLast, List.length_set]
              omega
            have : ((ms.set i (ms.getD (ms.length - 1) mappingZero)).dropLast).get ⟨j, hlen⟩
                = m := by
              rw [List.get_eq_getElem, List.getElem_dropLast, List.getElem_set_ne (Ne.symm hji)]
              exact hjm
            rw [← this]
            exact List.get_mem _ _ _
          · have hj1 : j = ms.length - 1 := by omega
            have hil : i < ms.length - 1 := by omega
            have hlen : i < ((ms.set i (ms.getD (ms.length - 1) mappingZero)).dropLast).length := by
              simp only [List.length_dropLast, List.length_set]
              omega
            have : ((ms.set i (ms.getD (ms.length - 1) mappingZero)).dropLast).get ⟨i, hlen⟩
                = m := by
              rw [List.get_eq_getElem, List.getElem_dropLast, List.getElem_set_self]
              · simp only [List.getD_eq_getElem?_getD,
                  List.getElem?_eq_getElem (by omega : ms.length - 1 < ms.length),
                  Option.getD_some]
                subst hj1
                exact hjm
            rw [← this]
            exact List.get_mem _ _ _
      · rw [if_neg hmt]
        exact ih (i + 1) ms (by omega) m hm hnm
    · rw [if_neg hi]
      exact hm

theorem clearMappingsForPort_mem (r c : Nat) (ms : List Mapping) (m : Mapping) :
    m ∈ clearMappingsForPort r c ms ↔ (m ∈ ms ∧ ¬ (m.row = r ∧ m.col = c)) := by
  constructor
  · intro h
    exact ⟨clearMappingsLoop_subset r c ms.length 0 ms m h,
           clearMappingsLoop_not_mem r c ms.length 0 ms (by omega) (by simp) m h⟩
  · intro ⟨h1, h2⟩
    exact clearMappingsLoop_mem_of r c ms.length 0 ms (by omega) m h1 h2

end PiControl
namespace PiControl

theorem removePort_eq (s : ScanState) (hc : s.port.configured = true)
    (ho : s.serialOpen = true) :
    removePort s
      = { port := { s.port with configured := false, hasModule := false,
                                module := emptyModule },
          serialOpen := false, lastHeardMs := 0, lastRxHighMs := 0, lastPingSentMs := 0,
          mappings := clearMappingsForPort s.port.row s.port.col s.mappings } := by
  unfold removePort
  rw [if_neg (by simp [hc, ho])]

theorem scanPortStep_remove (s : ScanState) (now : Nat) (rx : Bool)
    (hc : s.port.configured = true) (ho : s.serialOpen = true)
    (h1 : s.lastHeardMs ≠ 0) (h2 : RESPONSE_TIMEOUT_MS < u32sub now s.lastHeardMs)
    (h3 : (if rx then now else s.lastRxHighMs) = 0
      ∨ RESPONSE_TIMEOUT_MS < u32sub now (if rx then now else s.lastRxHighMs)) :
    scanPortStep s now rx
      = { port := { s.port with configured := false, hasModule := false,
                                module := emptyModule },
          serialOpen := false, lastHeardMs := 0, lastRxHighMs := 0, lastPingSentMs := 0,
          mappings := clearMappingsForPort s.port.row s.port.col s.mappings } := by
  unfold scanPortStep
  rw [if_neg (by simp [hc, ho])]
  cases rx with
  | true =>
    simp only [if_true] at h3 ⊢
    rw [if_pos ⟨⟨h1, h2⟩, h3⟩]
    exact removePort_eq _ hc ho
  | false =>
    simp only [Bool.false_eq_true, if_false] at h3 ⊢
    rw [if_pos ⟨⟨h1, h2⟩, h3⟩]
    exact removePort_eq _ hc ho

theorem scanPortStep_keep (s : ScanState) (now : Nat) (rx : Bool)
    (hc : s.port.configured = true) (ho : s.serialOpen = true)
    (h : ¬ ((s.lastHeardMs ≠ 0 ∧ RESPONSE_TIMEOUT_MS < u32sub now s.lastHeardMs)
      ∧ ((if rx then now else s.lastRxHighMs) = 0
        ∨ RESPONSE_TIMEOUT_MS < u32sub now (if rx then now else s.lastRxHighMs)))) :
    scanPortStep s now rx = (if rx then { s with lastRxHighMs := now } else s) := by
  unfold scanPortStep
  rw [if_neg (by simp [hc, ho])]
  cases rx with
  | true =>
    simp only [if_true] at h ⊢
    rw [if_neg h]
  | false =>
    simp only [Bool.false_eq_true, if_false] at h ⊢
    rw [if_neg h]

end PiControl
namespace PiControl

/-- C4: a configured slot with an open transport is removed at a scan
iff both removal conditions hold after the opportunistic RX sample: a
frame has been heard (`lastHeardMs ≠ 0`) but more than 500 ms ago, and
the RX line was never seen high or not within 500 ms (part 1 — so a slot
with a recent frame or a recently observed idle line is never removed);
on removal the transport is closed, `hasModule` is cleared, the module
descriptor is zeroed, the liveness timestamps are reset, and the mapping
table afterwards holds exactly the previous mappings not keyed to that
slot's cell (part 2); when the conditions do not both hold, the scan
leaves the state untouched apart from the RX sample (part 3). -/
theorem port_removal_conditions_and_effects :
    (∀ (s : ScanState) (now : Nat) (rx : Bool),
      s.port.configured = true → s.serialOpen = true →
      ((scanPortStep s now rx).port.configured = false ↔
        ((s.lastHeardMs ≠ 0 ∧ RESPONSE_TIMEOUT_MS < u32sub now s.lastHeardMs)
          ∧ ((if rx then now else s.lastRxHighMs) = 0
            ∨ RESPONSE_TIMEOUT_MS < u32sub now (if rx then now else s.lastRxHighMs))))) ∧
    (∀ (s : ScanState) (now : Nat) (rx : Bool),
      s.port.configured = true → s.serialOpen = true →
      (s.lastHeardMs ≠ 0 ∧ RESPONSE_TIMEOUT_MS < u32sub now s.lastHeardMs) →
      ((if rx then now else s.lastRxHighMs) = 0
        ∨ RESPONSE_TIMEOUT_MS < u32sub now (if rx then now else s.lastRxHighMs)) →
      ((scanPortStep s now rx).serialOpen = false
        ∧ (scanPortStep s now rx).port.hasModule = false
        ∧ (scanPortStep s now rx).port.module = emptyModule
        ∧ (scanPortStep s now rx).lastHeardMs = 0
        ∧ (scanPortStep s now rx).lastRxHighMs = 0
        ∧ (scanPortStep s now rx).lastPingSentMs = 0
        ∧ ∀ m : Mapping, m ∈ (scanPortStep s now rx).mappings
            ↔ (m ∈ s.mappings ∧ ¬ (m.row = s.port.row ∧ m.col = s.port.col)))) ∧
    (∀ (s : ScanState) (now : Nat) (rx : Bool),
      s.port.configured = true → s.serialOpen = true →
      ¬ ((s.lastHeardMs ≠ 0 ∧ RESPONSE_TIMEOUT_MS < u32sub now s.lastHeardMs)
        ∧ ((if rx then now else s.lastRxHighMs) = 0
          ∨ RESPONSE_TIMEOUT_MS < u32sub now (if rx then now else s.lastRxHighMs))) →
      scanPortStep s now rx = (if rx then { s with lastRxHighMs := now } else s)) := by
  refine ⟨?_, ?_, ?_⟩
  · intro s now rx hc ho
    constructor
    · intro hrm
      by_contra hnc
      rw [scanPortStep_keep s now rx hc ho hnc] at hrm
      cases rx with
      | true =>
        simp only [if_true] at hrm
        rw [show ({ s with lastRxHighMs := now } : ScanState).port = s.port from rfl] at hrm
        rw [hc] at hrm
        exact Bool.noConfusion hrm
      | false =>
        simp only [Bool.false_eq_true, if_false] at hrm
        rw [hc] at hrm
        exact Bool.noConfusion hrm
    · intro hcond
      rw [scanPortStep_remove s now rx hc ho hcond.1.1 hcond.1.2 hcond.2]
  · intro s now rx hc ho h12 h3
    rw [scanPortStep_remove s now rx hc ho h12.1 h12.2 h3]
    exact ⟨rfl, rfl, rfl, rfl, rfl, rfl,
           fun m => clearMappingsForPort_mem s.port.row s.port.col s.mappings m⟩
  · intro s now rx hc ho h
    exact scanPortStep_keep s now rx hc ho h

/-- C4 witness: a configured open slot last heard 600 ms ago with the RX
line last seen high 650 ms ago and a low sample now; two mappings, one
keyed to this cell. -/
theorem port_removal_conditions_and_effects_witness :
    ((scanPortStep
        { port := { row := 0, col := 0, hasModule := true,
                    module := { capabilities := 0, parameterCount := 0, parameters := [] },
                    orientation := 0, configured := true },
          serialOpen := true, lastHeardMs := 100, lastRxHighMs := 50, lastPingSentMs := 0,
          mappings := [{ row := 0, col := 0, paramId := 1, action := 2 },
                       { row := 1, col := 2, paramId := 3, action := 4 }] }
        700 false).serialOpen = false
      ∧ (scanPortStep
        { port := { row := 0, col := 0, hasModule := true,
                    module := { capabilities := 0, parameterCount := 0, parameters := [] },
                    orientation := 0, configured := true },
          serialOpen := true, lastHeardMs := 100, lastRxHighMs := 50, lastPingSentMs := 0,
          mappings := [{ row := 0, col := 0, paramId := 1, action := 2 },
                       { row := 1, col := 2, paramId := 3, action := 4 }] }
        700 false).port.hasModule = false
      ∧ (scanPortStep
        { port := { row := 0, col := 0, hasModule := true,
                    module := { capabilities := 0, parameterCount := 0, parameters := [] },
                    orientation := 0, configured := true },
          serialOpen := true, lastHeardMs := 100, lastRxHighMs := 50, lastPingSentMs := 0,
          mappings := [{ row := 0, col := 0, paramId := 1, action := 2 },
                       { row := 1, col := 2, paramId := 3, action := 4 }] }
        700 false).port.module = emptyModule
      ∧ (scanPortStep
        { port := { row := 0, col := 0, hasModule := true,
                    module := { capabilities := 0, parameterCount := 0, parameters := [] },
                    orientation := 0, configured := true },
          serialOpen := true, lastHeardMs := 100, lastRxHighMs := 50, lastPingSentMs := 0,
          mappings := [{ row := 0, col := 0, paramId := 1, action := 2 },
                       { row := 1, col := 2, paramId := 3, action := 4 }] }
        700 false).lastHeardMs = 0
      ∧ (scanPortStep
        { port := { row := 0, col := 0, hasModule := true,
                    module := { capabilities := 0, parameterCount := 0, parameters := [] },
                    orientation := 0, configured := true },
          serialOpen := true, lastHeardMs := 100, lastRxHighMs := 50, lastPingSentMs := 0,
          mappings := [{ row := 0, col := 0, paramId := 1, action := 2 },
                       { row := 1, col := 2, paramId := 3, action := 4 }] }
        700 false).lastRxHighMs = 0
      ∧ (scanPortStep
        { port := { row := 0, col := 0, hasModule := true,
                    module := { capabilities := 0, parameterCount := 0, parameters := [] },
                    orientation := 0, configured := true },
          serialOpen := true, lastHeardMs := 100, lastRxHighMs := 50, lastPingSentMs := 0,
          mappings := [{ row := 0, col := 0, paramId := 1, action := 2 },
                       { row := 1, col := 2, paramId := 3, action := 4 }] }
        700 false).lastPingSentMs = 0
      ∧ ∀ m : Mapping, m ∈ (scanPortStep
        { port := { row := 0, col := 0, hasModule := true,
                    module := { capabilities := 0, parameterCount := 0, parameters := [] },
                    orientation := 0, configured := true },
          serialOpen := true, lastHeardMs := 100, lastRxHighMs := 50, lastPingSentMs := 0,
          mappings := [{ row := 0, col := 0, paramId := 1, action := 2 },
                       { row := 1, col := 2, paramId := 3, action := 4 }] }
        700 false).mappings
          ↔ (m ∈ [({ row := 0, col := 0, paramId := 1, action := 2 } : Mapping),
                  { row := 1, col := 2, paramId := 3, action := 4 }]
            ∧ ¬ (m.row = 0 ∧ m.col = 0))) :=
  port_removal_conditions_and_effects.2.1
    { port := { row := 0, col := 0, hasModule := true,
                module := { capabilities := 0, parameterCount := 0, parameters := [] },
                orientation := 0, configured := true },
      serialOpen := true, lastHeardMs := 100, lastRxHighMs := 50, lastPingSentMs := 0,
      mappings := [{ row := 0, col := 0, paramId := 1, action := 2 },
                   { row := 1, col := 2, paramId := 3, action := 4 }] }
    700 false rfl rfl ⟨by decide, by decide⟩ (by decide)

end PiControl
